import Mathlib

/-!
Verification of the `weekly` time-tracking tool (github.com/bassosimone/weekly).

Shallow embedding of the event-annotation parser (internal/parser/parser.go)
and of the reporting pipeline (internal/pipeline/pipeline.go), together with
proofs of the specification claims about them.

Modelling conventions:
* Go slices are modelled as `Option (List α)`: `none` is the `nil` slice and
  `some l` is a non-nil slice holding `l`.  `append` on a `nil` slice yields a
  non-nil slice, exactly as in Go.
* `time.Time` values are modelled as civil (wall-clock) components together
  with the zone offset in minutes (`GoTime`).  All the times flowing through
  this program are produced by `time.Parse` with fixed-offset layouts, for
  which this representation is exact, and the only operations the program
  performs on them are `Format` with date layouts (which reads the civil
  components) and subtraction (which reads the absolute instant).
* `time.Duration` (an `int64` nanosecond count) is modelled as `Int`; every
  operation performed on durations here is addition, which is associative and
  commutative both over `Int` and modulo 2^64, so sums and sum-equality are
  unaffected by the missing wrap-around.
* Go `error` results are modelled with `Except`: the pipeline returns its
  exact `fmt.Errorf` message as a `String`, while the parser returns a value
  of an inductive error type carrying the offending raw event, mirroring the
  distinct `fmt.Errorf` sites of parser.go.
-/

set_option linter.unusedVariables false
set_option autoImplicit false

namespace Weekly

/-! ## Go slices -/

/-- A Go slice: `none` is the `nil` slice, `some l` a non-nil slice. -/
def GoSlice (α : Type) : Type := Option (List α)

/-- The elements of a Go slice (`nil` has no elements). -/
def sliceList {α : Type} (s : GoSlice α) : List α := Option.getD s []

/-- Go's `append(s, a)`: the result is always non-nil. -/
def goAppend {α : Type} (s : GoSlice α) (a : α) : GoSlice α := some (sliceList s ++ [a])

/-- The `nil` slice. -/
def goNil {α : Type} : GoSlice α := none

/-- A non-nil slice holding exactly `l` (e.g. the result of `make([]T, 0, n)`
followed by appends). -/
def goOf {α : Type} (l : List α) : GoSlice α := some l

instance {α : Type} [DecidableEq α] : DecidableEq (GoSlice α) := by
  unfold GoSlice; exact inferInstance

/-! ## Civil time -/

/-- A fixed-offset `time.Time`: wall-clock components plus the zone offset in
minutes east of UTC. -/
structure GoTime where
  year : Nat
  month : Nat
  day : Nat
  hour : Nat
  minute : Nat
  second : Nat
  offset : Int
deriving DecidableEq, Repr

/-- Go's zero `time.Time`: January 1, year 1, 00:00:00 UTC. -/
def GoTime.zero : GoTime := ⟨1, 1, 1, 0, 0, 0, 0⟩

/-- Gregorian leap-year rule (mirrors Go's `isLeap`). -/
def isLeap (y : Nat) : Bool := y % 4 = 0 && (y % 100 ≠ 0 || y % 400 = 0)

/-- Number of days of month `m` of year `y` (1-based month). -/
def daysInMonth (y m : Nat) : Nat :=
  if m = 2 then (if isLeap y then 29 else 28)
  else if m = 4 ∨ m = 6 ∨ m = 9 ∨ m = 11 then 30
  else 31

/-- Days since the Unix epoch of a civil date (Gregorian, proleptic). -/
def daysFromCivil (y m d : Nat) : Int :=
  let ys := y + 400
  let ya := if m ≤ 2 then ys - 1 else ys
  let mp := if m ≤ 2 then m + 9 else m - 3
  let days : Nat := ya * 365 + ya / 4 - ya / 100 + ya / 400 + (153 * mp + 2) / 5 + (d - 1)
  (days : Int) - 146097 - 719468

/-- The absolute instant of a `GoTime`, in seconds since the Unix epoch. -/
def GoTime.instantSec (t : GoTime) : Int :=
  daysFromCivil t.year t.month t.day * 86400
    + ((t.hour * 3600 + t.minute * 60 + t.second : Nat) : Int) - t.offset * 60

/-- Civil-date validity plus the 4-digit year range that the RFC3339 layouts
used by this program can produce and consume. -/
def GoTime.ValidCivil (t : GoTime) : Prop :=
  t.year ≤ 9999 ∧ 1 ≤ t.month ∧ t.month ≤ 12 ∧ 1 ≤ t.day ∧ t.day ≤ daysInMonth t.year t.month

instance (t : GoTime) : Decidable t.ValidCivil := by
  unfold GoTime.ValidCivil; exact inferInstance

/-! ## Decimal formatting (Go's `time.Format` number output)

Go's `appendInt(n, w)` zero-pads `n` to width `w` and prints all digits when
`n` needs more than `w` of them. -/

/-- Zero-padded decimal digits of `n` (width `w`), most significant first. -/
def pad (w n : Nat) : List Char :=
  if h : n < 10 then List.replicate (w - 1) '0' ++ [Nat.digitChar n]
  else pad (w - 1) (n / 10) ++ [Nat.digitChar (n % 10)]
termination_by n
decreasing_by
  exact Nat.div_lt_self (by omega) (by omega)

/-- `t.Format("2006-01-02")`. -/
def fmtDaily (t : GoTime) : String :=
  String.mk (pad 4 t.year ++ '-' :: (pad 2 t.month ++ '-' :: pad 2 t.day))

/-- `t.Format("2006-01")`. -/
def fmtMonthly (t : GoTime) : String :=
  String.mk (pad 4 t.year ++ '-' :: pad 2 t.month)

/-- Numeric value of a decimal digit character. -/
def dval (c : Char) : Nat := c.toNat - 48

/-- `time.Parse("2006-01-02", s)`: strict fixed-width parse with range
validation; the missing clock fields default to 00:00:00 UTC. -/
def parseDaily (s : String) : Option GoTime :=
  match s.toList with
  | [y1, y2, y3, y4, h1, m1, m2, h2, d1, d2] =>
    if y1.isDigit ∧ y2.isDigit ∧ y3.isDigit ∧ y4.isDigit ∧ h1 = '-'
        ∧ m1.isDigit ∧ m2.isDigit ∧ h2 = '-' ∧ d1.isDigit ∧ d2.isDigit then
      let y := ((dval y1 * 10 + dval y2) * 10 + dval y3) * 10 + dval y4
      let m := dval m1 * 10 + dval m2
      let d := dval d1 * 10 + dval d2
      if 1 ≤ m ∧ m ≤ 12 ∧ 1 ≤ d ∧ d ≤ daysInMonth y m then
        some ⟨y, m, d, 0, 0, 0, 0⟩
      else none
    else none
  | _ => none

/-- `time.Parse("2006-01", s)`: the missing day defaults to 1. -/
def parseMonthly (s : String) : Option GoTime :=
  match s.toList with
  | [y1, y2, y3, y4, h1, m1, m2] =>
    if y1.isDigit ∧ y2.isDigit ∧ y3.isDigit ∧ y4.isDigit ∧ h1 = '-'
        ∧ m1.isDigit ∧ m2.isDigit then
      let y := ((dval y1 * 10 + dval y2) * 10 + dval y3) * 10 + dval y4
      let m := dval m1 * 10 + dval m2
      if 1 ≤ m ∧ m ≤ 12 then some ⟨y, m, 1, 0, 0, 0, 0⟩ else none
    else none
  | _ => none

/-- `day, _ := time.Parse("2006-01-02", key)`: Go discards the parse error,
keeping the zero time on failure. -/
def parseDailyZ (s : String) : GoTime := (parseDaily s).getD GoTime.zero

/-- `day, _ := time.Parse("2006-01", key)` with the error discarded. -/
def parseMonthlyZ (s : String) : GoTime := (parseMonthly s).getD GoTime.zero

/-- `time.Parse("2006-01-02T15:04:05-07:00", s)`: strict fixed-width RFC3339
parse with a mandatory explicit offset and range validation. -/
def parseGoTime (s : String) : Option GoTime :=
  match s.toList with
  | [y1, y2, y3, y4, c1, mo1, mo2, c2, d1, d2, ct, h1, h2, c3, mi1, mi2, c4,
      s1, s2, sg, z1, z2, c5, z3, z4] =>
    if y1.isDigit ∧ y2.isDigit ∧ y3.isDigit ∧ y4.isDigit ∧ c1 = '-'
        ∧ mo1.isDigit ∧ mo2.isDigit ∧ c2 = '-' ∧ d1.isDigit ∧ d2.isDigit
        ∧ ct = 'T' ∧ h1.isDigit ∧ h2.isDigit ∧ c3 = ':' ∧ mi1.isDigit
        ∧ mi2.isDigit ∧ c4 = ':' ∧ s1.isDigit ∧ s2.isDigit
        ∧ (sg = '+' ∨ sg = '-') ∧ z1.isDigit ∧ z2.isDigit ∧ c5 = ':'
        ∧ z3.isDigit ∧ z4.isDigit then
      let y := ((dval y1 * 10 + dval y2) * 10 + dval y3) * 10 + dval y4
      let mo := dval mo1 * 10 + dval mo2
      let d := dval d1 * 10 + dval d2
      let h := dval h1 * 10 + dval h2
      let mi := dval mi1 * 10 + dval mi2
      let sec := dval s1 * 10 + dval s2
      let zh := dval z1 * 10 + dval z2
      let zm := dval z3 * 10 + dval z4
      if 1 ≤ mo ∧ mo ≤ 12 ∧ 1 ≤ d ∧ d ≤ daysInMonth y mo ∧ h ≤ 23 ∧ mi ≤ 59
          ∧ sec ≤ 59 ∧ zh ≤ 23 ∧ zm ≤ 59 then
        some ⟨y, mo, d, h, mi, sec,
          (if sg = '-' then -1 else 1) * ((zh : Int) * 60 + zm)⟩
      else none
    else none
  | _ => none

/-! ## The calendarapi package: the raw event shape -/

namespace calendarapi

/-- `calendarapi.Event`: the raw calendar event handed to the parser. -/
structure Event where
  summary : String
  startTime : String
  endTime : String
deriving DecidableEq, Repr

end calendarapi

/-! ## The parser package (internal/parser/parser.go) -/

namespace parser

/-- `parser.Event`: a decoded weekly calendar entry. -/
structure Event where
  project : String
  activity : String
  tags : GoSlice String
  persons : GoSlice String
  startTime : GoTime
  duration : Int
deriving DecidableEq

/-- The error value of each `fmt.Errorf` site of parser.go; every variant
carries the offending raw event (Go interpolates it into the message). -/
inductive ParseError where
  | multipleProjects (ev : calendarapi.Event)
  | multipleActivities (ev : calendarapi.Event)
  | missingProjectOrActivity (ev : calendarapi.Event)
  | invalidStartTime (ev : calendarapi.Event)
  | invalidEndTime (ev : calendarapi.Event)
deriving DecidableEq, Repr

/-- `strings.SplitSeq(s, " ")` on the character list of `s`: the chunks of
`s` between the occurrences of `sep` (the empty string yields one empty
chunk, as in Go). -/
def splitSeq (sep : Char) : List Char → List (List Char)
  | [] => [[]]
  | c :: rest =>
    if c = sep then [] :: splitSeq sep rest
    else
      match splitSeq sep rest with
      | t :: ts => (c :: t) :: ts
      | [] => [[c]]

/-- The zero-initialised `Event` built at the top of `Parse`'s loop
(`Tags: []string{}` and `Persons: []string{}` are non-nil empty slices). -/
def initEvent : Event :=
  { project := "", activity := "", tags := goOf [], persons := goOf []
    startTime := GoTime.zero, duration := 0 }

/-- One iteration of `parseSummary`'s token loop: dispatch on the sigil
prefix (`$`, `%`, `#`, `@`), everything else is ignored. -/
def scanToken (ev : calendarapi.Event) (e : Event) (token : List Char) :
    Except ParseError Event :=
  match token with
  | '$' :: rest =>
    if e.project ≠ "" then .error (.multipleProjects ev)
    else .ok { e with project := String.mk rest }
  | '%' :: rest =>
    if e.activity ≠ "" then .error (.multipleActivities ev)
    else .ok { e with activity := String.mk rest }
  | '#' :: rest => .ok { e with tags := goAppend e.tags (String.mk rest) }
  | '@' :: rest => .ok { e with persons := goAppend e.persons (String.mk rest) }
  | _ => .ok e

/-- `(*Event).parseSummary`: scan the space-separated tokens of the summary,
then require a project and an activity. -/
def parseSummary (ev : calendarapi.Event) (e : Event) : Except ParseError Event := do
  let e ← (splitSeq ' ' ev.summary.toList).foldlM (scanToken ev) e
  if e.project = "" ∨ e.activity = "" then .error (.missingProjectOrActivity ev)
  else .ok e

/-- `(*Event).parseTimes`: decode both RFC3339 timestamps and compute the
signed duration `EndTime − StartTime` in nanoseconds. -/
def parseTimes (ev : calendarapi.Event) (e : Event) : Except ParseError Event :=
  match parseGoTime ev.startTime with
  | none => .error (.invalidStartTime ev)
  | some st =>
    match parseGoTime ev.endTime with
    | none => .error (.invalidEndTime ev)
    | some et =>
      .ok { e with startTime := st
                   duration := (et.instantSec - st.instantSec) * 1000000000 }

/-- `(*Event).parseAll`: summary first, then the times. -/
def parseAll (ev : calendarapi.Event) (e : Event) : Except ParseError Event := do
  parseTimes ev (← parseSummary ev e)

/-- The body of `Parse`'s loop applied to one raw event. -/
def decodeEvent (input : calendarapi.Event) : Except ParseError Event :=
  parseAll input initEvent

/-- `parser.Parse`: decode every raw event; the first failure aborts the
whole batch with a nil slice (`return nil, err`). -/
def Parse (inputs : List calendarapi.Event) : Except ParseError (GoSlice Event) :=
  inputs.foldlM (fun outputs input => (decodeEvent input).map (goAppend outputs))
    (goOf [])

end parser

/-! ## The pipeline package (internal/pipeline/pipeline.go) -/

namespace pipeline

/-- `pipeline.Config` (the struct in src/internal/pipeline/pipeline.go: it
has no tag field). -/
structure Config where
  aggregate : String
  project : String
  total : Bool
deriving DecidableEq, Repr

/-- `maybeFilterByProject`: keep the events of `project` (all of them when
`project` is unset), appending to an initially-nil output slice. -/
def maybeFilterByProject (project : String) (inputs : GoSlice parser.Event) :
    GoSlice parser.Event :=
  (sliceList inputs).foldl
    (fun outputs ev =>
      if project = "" ∨ ev.project = project then goAppend outputs ev else outputs)
    goNil

/-- `sums[key] += d` on an association list (insertion at the end when the
key is absent; the iteration order is irrelevant because Go sorts the keys). -/
def bumpInner (p : String) (d : Int) : List (String × Int) → List (String × Int)
  | [] => [(p, d)]
  | (k, v) :: rest =>
    if k = p then (k, v + d) :: rest else (k, v) :: bumpInner p d rest

/-- `sums[timeKey][project] += d` on nested association lists, creating the
inner map when `timeKey` is absent. -/
def bumpOuter (tk p : String) (d : Int) :
    List (String × List (String × Int)) → List (String × List (String × Int))
  | [] => [(tk, bumpInner p d [])]
  | (k, m) :: rest =>
    if k = tk then (k, bumpInner p d m) :: rest else (k, m) :: bumpOuter tk p d rest

/-- The aggregation loop of `maybeAggregate`: bucket every event by
`(ev.StartTime.Format(timeFormat), ev.Project)` and sum the durations. -/
def buildSums (fmt : GoTime → String) (evs : List parser.Event) :
    List (String × List (String × Int)) :=
  evs.foldl (fun sums ev => bumpOuter (fmt ev.startTime) ev.project ev.duration sums) []

/-- `slices.Sorted(maps.Keys(m))`: the keys in ascending string order. -/
def sortStrings (l : List String) : List String := l.insertionSort (· ≤ ·)

/-- Association-list lookup (`m[k]` presence/value). -/
def alookup {β : Type} (k : String) (l : List (String × β)) : Option β :=
  Option.map Prod.snd (l.find? (fun kv => kv.1 == k))

/-- Association-list lookup with a default (total, like Go map indexing). -/
def lookupD {β : Type} (k : String) (l : List (String × β)) (dflt : β) : β :=
  (alookup k l).getD dflt

/-- The output-generation loop of `maybeAggregate`: iterate the sorted time
keys, re-parse each key into a (UTC-labelled) `day`, iterate the sorted
projects, and append one synthesized event per bucket. -/
def emitAggregates (parse : String → GoTime)
    (sums : List (String × List (String × Int))) : GoSlice parser.Event :=
  (sortStrings (sums.map Prod.fst)).foldl
    (fun outputs tk =>
      let inner := lookupD tk sums []
      let day := parse tk
      (sortStrings (inner.map Prod.fst)).foldl
        (fun outputs project =>
          goAppend outputs
            { project := project, activity := "", tags := goNil, persons := goNil
              startTime := day, duration := lookupD project inner 0 })
        outputs)
    goNil

/-- `maybeAggregate`: the policy switch, with the exact `fmt.Errorf` message
of the default branch. -/
def maybeAggregate (policy : String) (inputs : GoSlice parser.Event) :
    Except String (GoSlice parser.Event) :=
  match policy with
  | "" => .ok inputs
  | "daily" => .ok (emitAggregates parseDailyZ (buildSums fmtDaily (sliceList inputs)))
  | "monthly" => .ok (emitAggregates parseMonthlyZ (buildSums fmtMonthly (sliceList inputs)))
  | _ => .error ("invalid aggregation policy: " ++ policy ++ " (valid values: daily, monthly)")

/-- `sum[ev.Project]`: first write records every field (with `Activity` `""`
and non-nil empty `Tags`/`Persons`); later writes only add the duration. -/
def insertTotal (ev : parser.Event) :
    List (String × parser.Event) → List (String × parser.Event)
  | [] => [(ev.project,
      { project := ev.project, activity := "", tags := goOf [], persons := goOf []
        startTime := ev.startTime, duration := ev.duration })]
  | (k, acc) :: rest =>
    if k = ev.project then (k, { acc with duration := acc.duration + ev.duration }) :: rest
    else (k, acc) :: insertTotal ev rest

/-- A placeholder event (Go dereferences map entries that are always
present, so the default of `lookupD` is never reached). -/
def dummyEvent : parser.Event :=
  { project := "", activity := "", tags := goNil, persons := goNil
    startTime := GoTime.zero, duration := 0 }

/-- `maybeComputeTotal`: group by project, then emit into a slice created
with `make([]parser.Event, 0, len(sum))` (hence non-nil even when empty). -/
def maybeComputeTotal (total : Bool) (inputs : GoSlice parser.Event) :
    GoSlice parser.Event :=
  match total with
  | true =>
    let sum := (sliceList inputs).foldl (fun acc ev => insertTotal ev acc) []
    goOf ((sortStrings (sum.map Prod.fst)).map (fun k => lookupD k sum dummyEvent))
  | false => inputs

/-- The grouping loop of `maybeComputeTotal`: fold the inputs into the
project-keyed accumulator map. -/
def buildTotal (evs : List parser.Event) : List (String × parser.Event) :=
  evs.foldl (fun acc ev => insertTotal ev acc) []

/-- `pipeline.Run`: filter, then aggregate (propagating its error with a nil
slice), then total. -/
def Run (config : Config) (events : GoSlice parser.Event) :
    Except String (GoSlice parser.Event) :=
  let events := maybeFilterByProject config.project events
  match maybeAggregate config.aggregate events with
  | .error err => .error err
  | .ok events => .ok (maybeComputeTotal config.total events)

/-- Modelled from the spec: §4.2 Stage A's filter with the optional `tag`
clause.  The repository's pipeline tests (pipeline_test.go) drive a
`Config.Tag` field and tag-based filtering, but the pipeline implementation
under src lacks both; per the spec a record survives if (`project` is unset
OR `record.Project == project`) AND (`tag` is unset OR `tag ∈ record.Tags`),
the loop shape mirroring `maybeFilterByProject`. -/
def filterStage (project tag : String) (inputs : GoSlice parser.Event) :
    GoSlice parser.Event :=
  (sliceList inputs).foldl
    (fun outputs ev =>
      if (project = "" ∨ ev.project = project)
          ∧ (tag = "" ∨ tag ∈ sliceList ev.tags) then
        goAppend outputs ev
      else outputs)
    goNil

/-- The survival predicate of spec §4.2 Stage A. -/
def survives (project tag : String) (ev : parser.Event) : Prop :=
  (project = "" ∨ ev.project = project) ∧ (tag = "" ∨ tag ∈ sliceList ev.tags)

instance (project tag : String) (ev : parser.Event) :
    Decidable (survives project tag ev) := by
  unfold survives; exact inferInstance

end pipeline

/-- The bucket period start described by spec §4.2 Stage B: the start of the
record's civil day (for `daily`) or civil month (for `monthly`), evaluated in
the record's own offset, re-labelled as a UTC instant bearing the same
calendar-date components (offset 0). -/
def periodStart (policy : String) (t : GoTime) : GoTime :=
  if policy = "daily" then ⟨t.year, t.month, t.day, 0, 0, 0, 0⟩
  else ⟨t.year, t.month, 1, 0, 0, 0, 0⟩

/-- Chronological (strict) order of two UTC-midnight `GoTime`s: lexicographic
on the civil date components. -/
def civilLT (a b : GoTime) : Prop :=
  a.year < b.year ∨ (a.year = b.year ∧
    (a.month < b.month ∨ (a.month = b.month ∧ a.day < b.day)))

instance (a b : GoTime) : Decidable (civilLT a b) := by
  unfold civilLT; exact inferInstance

/-- A concrete decoded record (one of the rows of the repository's pipeline
tests), used to exhibit concrete pipeline behaviour. -/
def sampleEvent : parser.Event :=
  { project := "nexa", activity := "development", tags := goOf ["neubot"]
    persons := goOf [], startTime := ⟨2017, 11, 3, 10, 0, 0, 60⟩
    duration := 3600000000000 }

/-! ## Basic slice lemmas -/

theorem sliceList_goOf {α : Type} (l : List α) : sliceList (goOf l) = l := rfl

theorem sliceList_goNil {α : Type} : sliceList (goNil : GoSlice α) = [] := rfl

theorem sliceList_goAppend {α : Type} (s : GoSlice α) (a : α) :
    sliceList (goAppend s a) = sliceList s ++ [a] := rfl

theorem foldl_ite_goAppend {α : Type} (P : α → Prop) [DecidablePred P]
    (l : List α) (acc : GoSlice α) :
    sliceList (l.foldl (fun o a => if P a then goAppend o a else o) acc) =
      sliceList acc ++ l.filter (fun a => decide (P a)) := by
  induction l generalizing acc with
  | nil => simp
  | cons x xs ih =>
    by_cases h : P x
    · simp [List.foldl_cons, if_pos h, ih, sliceList_goAppend, List.filter_cons, h]
    · simp [List.foldl_cons, if_neg h, ih, List.filter_cons, h]

theorem foldl_goAppend_map {α β : Type} (f : β → α) (l : List β) (acc : GoSlice α) :
    sliceList (l.foldl (fun o b => goAppend o (f b)) acc) = sliceList acc ++ l.map f := by
  induction l generalizing acc with
  | nil => simp
  | cons x xs ih => simp [List.foldl_cons, ih, sliceList_goAppend]

/-! ## Claim theorems: the filter stage -/

/-- C1: for every record list and every pipeline config, the filter stage
keeps exactly the records satisfying (`project` unset OR matching) AND
(`tag` unset OR occurring in `record.Tags`), preserving the relative order
of the surviving records (the output is literally the stable filter of the
input by the survival predicate). -/
theorem filterStage_keeps_exactly (project tag : String) (inputs : GoSlice parser.Event) :
    sliceList (pipeline.filterStage project tag inputs) =
      (sliceList inputs).filter (fun ev => decide (pipeline.survives project tag ev)) := by
  unfold pipeline.filterStage
  simp only [pipeline.survives]
  generalize sliceList inputs = l
  suffices h : ∀ acc : GoSlice parser.Event,
      sliceList (l.foldl (fun outputs ev =>
        if (project = "" ∨ ev.project = project) ∧ (tag = "" ∨ tag ∈ sliceList ev.tags)
        then goAppend outputs ev else outputs) acc) =
      sliceList acc ++ l.filter (fun ev =>
        decide ((project = "" ∨ ev.project = project) ∧ (tag = "" ∨ tag ∈ sliceList ev.tags))) by
    simpa using h goNil
  induction l with
  | nil => intro acc; simp
  | cons x xs ih =>
    intro acc
    by_cases hx : (project = "" ∨ x.project = project) ∧ (tag = "" ∨ tag ∈ sliceList x.tags)
    · simp [List.foldl_cons, if_pos hx, ih, sliceList_goAppend, List.filter_cons, hx]
    · simp [List.foldl_cons, if_neg hx, ih, List.filter_cons, hx]

/-! ## Claim theorems: aggregation policy validation -/

/-- C2 (divergence witness): the pipeline rejects the aggregation policy
`weekly` with the invalid-policy error, although the `Config` documentation
("Valid policies are: monthly and weekly") and the repository's pipeline
tests ("aggregate weekly", Monday-anchored buckets) require it to succeed. -/
theorem run_weekly_rejected :
    pipeline.Run ⟨"weekly", "", false⟩ (goOf [sampleEvent]) =
      .error "invalid aggregation policy: weekly (valid values: daily, monthly)" := rfl

/-- C5: for every record list and every aggregation policy outside the valid
set {"", "daily", "monthly"}, the pipeline run returns an error (and no
records), whose message is exactly the `fmt.Errorf` text naming the
offending policy. -/
theorem run_invalid_policy (config : pipeline.Config) (events : GoSlice parser.Event)
    (h : config.aggregate ∉ (["", "daily", "monthly"] : List String)) :
    pipeline.Run config events =
      .error ("invalid aggregation policy: " ++ config.aggregate
        ++ " (valid values: daily, monthly)") := by
  simp only [List.mem_cons, List.mem_singleton, not_or] at h
  obtain ⟨h1, h2, h3, -⟩ := h
  unfold pipeline.Run
  have hagg : pipeline.maybeAggregate config.aggregate
      (pipeline.maybeFilterByProject config.project events) =
      .error ("invalid aggregation policy: " ++ config.aggregate
        ++ " (valid values: daily, monthly)") := by
    unfold pipeline.maybeAggregate
    split
    · exact absurd (by assumption) h1
    · exact absurd (by assumption) h2
    · exact absurd (by assumption) h3
    · rfl
  simp only [hagg]

/-- C5 witness: at the concrete policy `biweekly` the run fails with exactly
the message the spec quotes. -/
theorem run_invalid_policy_witness :
    (("biweekly" : String) ∉ (["", "daily", "monthly"] : List String)) ∧
      pipeline.Run ⟨"biweekly", "", false⟩ (goOf []) =
        .error "invalid aggregation policy: biweekly (valid values: daily, monthly)" :=
  ⟨by decide, (run_invalid_policy ⟨"biweekly", "", false⟩ (goOf []) (by decide)).trans rfl⟩

/-! ## Summary-splitting lemmas -/

theorem splitSeq_sepFree (sep : Char) (a : List Char) (h : sep ∉ a) :
    parser.splitSeq sep a = [a] := by
  induction a with
  | nil => rfl
  | cons c rest ih =>
    simp only [List.mem_cons, not_or] at h
    conv_lhs => unfold parser.splitSeq
    rw [if_neg (fun hc => h.1 hc.symm), ih h.2]

theorem splitSeq_append (sep : Char) (a r : List Char) (h : sep ∉ a) :
    parser.splitSeq sep (a ++ sep :: r) = a :: parser.splitSeq sep r := by
  induction a with
  | nil =>
    show parser.splitSeq sep (sep :: r) = [] :: parser.splitSeq sep r
    conv_lhs => unfold parser.splitSeq
    rw [if_pos rfl]
  | cons c rest ih =>
    simp only [List.mem_cons, not_or] at h
    show parser.splitSeq sep (c :: (rest ++ sep :: r)) = (c :: rest) :: parser.splitSeq sep r
    conv_lhs => unfold parser.splitSeq
    rw [if_neg (fun hc => h.1 hc.symm), ih h.2]

/-! ## Claim theorems: batch decoding -/

theorem except_bind_ok {ε α β : Type} (a : α) (f : α → Except ε β) :
    (Except.ok a >>= f) = f a := rfl

theorem except_bind_error {ε α β : Type} (e : ε) (f : α → Except ε β) :
    ((Except.error e : Except ε α) >>= f) = .error e := rfl

theorem except_pure {ε α : Type} (a : α) : (pure a : Except ε α) = .ok a := rfl

theorem except_map_ok {ε α β : Type} (f : α → β) (a : α) :
    Except.map f (.ok a : Except ε α) = .ok (f a) := rfl

theorem except_map_error {ε α β : Type} (f : α → β) (e : ε) :
    Except.map f (.error e : Except ε α) = .error e := rfl

theorem parseLoop_error (raws : List calendarapi.Event) (acc : GoSlice parser.Event)
    (h : ∃ r ∈ raws, ∃ e, parser.decodeEvent r = .error e) :
    ∃ e, raws.foldlM (fun o i => (parser.decodeEvent i).map (goAppend o)) acc = .error e := by
  induction raws generalizing acc with
  | nil => simp at h
  | cons r rest ih =>
    cases hd : parser.decodeEvent r with
    | error e =>
      refine ⟨e, ?_⟩
      simp [List.foldlM_cons, hd, Except.map, except_bind_error]
    | ok v =>
      have hrest : ∃ r ∈ rest, ∃ e, parser.decodeEvent r = .error e := by
        obtain ⟨r', hr', e, he⟩ := h
        rcases List.mem_cons.mp hr' with rfl | hmem
        · rw [hd] at he; cases he
        · exact ⟨r', hmem, e, he⟩
      obtain ⟨e, hres⟩ := ih (goAppend acc v) hrest
      refine ⟨e, ?_⟩
      simp [List.foldlM_cons, hd, Except.map, except_bind_ok]
      exact hres

theorem parseLoop_ok (raws : List calendarapi.Event) (recs : List parser.Event)
    (hall : List.Forall₂ (fun r rec => parser.decodeEvent r = .ok rec) raws recs)
    (l : List parser.Event) :
    raws.foldlM (fun o i => (parser.decodeEvent i).map (goAppend o)) (goOf l) =
      .ok (goOf (l ++ recs)) := by
  induction hall generalizing l with
  | nil => simp only [List.foldlM_nil, List.append_nil, except_pure]
  | cons h₁ h₂ ih =>
    rename_i r rec rest rrecs
    have hgo : goAppend (goOf l) rec = goOf (l ++ [rec]) := rfl
    simp only [List.foldlM_cons, h₁, except_map_ok, hgo, except_bind_ok]
    rw [ih (l ++ [rec])]
    simp

/-- C8: batch decoding is all-or-nothing: any failing element aborts the
whole call with an error (and no partial slice: the Go code returns
`nil, err`, modelled as a payload-free `Except.error`); when every element
decodes the result is one record per raw event in order; and decoding the
empty sequence yields the non-nil empty slice with no error. -/
theorem Parse_all_or_nothing (raws : List calendarapi.Event) :
    (parser.Parse ([] : List calendarapi.Event) = .ok (goOf [])) ∧
    ((∃ r ∈ raws, ∃ e, parser.decodeEvent r = .error e) →
      ∃ e, parser.Parse raws = .error e) ∧
    (∀ recs : List parser.Event,
      List.Forall₂ (fun r rec => parser.decodeEvent r = .ok rec) raws recs →
      parser.Parse raws = .ok (goOf recs)) := by
  refine ⟨rfl, ?_, ?_⟩
  · exact fun h => parseLoop_error raws (goOf []) h
  · intro recs hall
    have := parseLoop_ok raws recs hall []
    simpa [parser.Parse] using this

/-- A raw event rejected by the summary grammar (empty summary). -/
def badRaw : calendarapi.Event :=
  ⟨"", "2017-11-03T11:30:00+01:00", "2017-11-03T12:00:00+01:00"⟩

/-- A raw event that decodes successfully. -/
def goodRaw : calendarapi.Event :=
  ⟨"$nexa %development", "2017-11-03T10:00:00+01:00", "2017-11-03T11:00:00+01:00"⟩

/-- The decoded record of `goodRaw`. -/
def goodRec : parser.Event :=
  { project := "nexa", activity := "development", tags := goOf [], persons := goOf []
    startTime := ⟨2017, 11, 3, 10, 0, 0, 60⟩, duration := 3600000000000 }

/-- C8 witness: a failing one-element batch aborts with an error, and a
succeeding one-element batch yields exactly its decoded record. -/
theorem Parse_all_or_nothing_witness :
    (∃ e, parser.Parse [badRaw] = .error e) ∧
      parser.Parse [goodRaw] = .ok (goOf [goodRec]) :=
  ⟨(Parse_all_or_nothing [badRaw]).2.1
      ⟨badRaw, List.mem_singleton.mpr rfl, .missingProjectOrActivity badRaw, rfl⟩,
    (Parse_all_or_nothing [goodRaw]).2.2 [goodRec]
      (List.Forall₂.cons rfl List.Forall₂.nil)⟩

/-! ## Claim theorems: summary grammar boundaries -/

/-- C9: a raw event with an empty summary — and, generally, any raw event
whose summary scan completes with no project token or no activity token
recorded — fails decoding with `MissingProjectOrActivity` carrying the
offending raw event. -/
theorem decode_missing_project_or_activity (ev : calendarapi.Event) :
    (ev.summary = "" → parser.decodeEvent ev = .error (.missingProjectOrActivity ev)) ∧
    (∀ e' : parser.Event,
      (parser.splitSeq ' ' ev.summary.toList).foldlM (parser.scanToken ev)
          parser.initEvent = .ok e' →
      e'.project = "" ∨ e'.activity = "" →
      parser.decodeEvent ev = .error (.missingProjectOrActivity ev)) := by
  constructor
  · intro h
    unfold parser.decodeEvent parser.parseAll parser.parseSummary
    rw [h]
    rfl
  · intro e' hscan hmiss
    unfold parser.decodeEvent parser.parseAll parser.parseSummary
    simp only [hscan, except_bind_ok, if_pos hmiss, except_bind_error]

/-- C9 witness: the concrete empty-summary raw event of the parser tests is
rejected with `MissingProjectOrActivity` carrying it. -/
theorem decode_missing_witness :
    badRaw.summary = "" ∧
      parser.decodeEvent badRaw = .error (.missingProjectOrActivity badRaw) :=
  ⟨rfl, (decode_missing_project_or_activity badRaw).1 rfl⟩

/-- C10: a bare `$` (or `%`) token records an empty project (activity),
which counts as not set: a summary shaped `"$ % $x %y"` scans without the
multiple-projects/multiple-activities error and the later named tokens win,
while the summary `"$ %"` of only bare sigils still fails the
missing-project-or-activity check. -/
theorem scan_bare_sigils (x y : List Char) (ev ev' : calendarapi.Event)
    (hx : ' ' ∉ x) (hy : ' ' ∉ y)
    (hev : ev.summary.toList = ['$', ' ', '%', ' ', '$'] ++ x ++ [' ', '%'] ++ y)
    (hev' : ev'.summary.toList = ['$', ' ', '%']) :
    (∃ e', (parser.splitSeq ' ' ev.summary.toList).foldlM (parser.scanToken ev)
        parser.initEvent = .ok e' ∧
      e'.project = String.mk x ∧ e'.activity = String.mk y) ∧
    parser.parseSummary ev' parser.initEvent = .error (.missingProjectOrActivity ev') := by
  constructor
  · rw [hev]
    have e1 : (['$', ' ', '%', ' ', '$'] ++ x ++ [' ', '%'] ++ y : List Char) =
        ['$'] ++ ' ' :: (['%'] ++ ' ' :: (('$' :: x) ++ ' ' :: ('%' :: y))) := by
      simp
    have hsplit : parser.splitSeq ' ' (['$', ' ', '%', ' ', '$'] ++ x ++ [' ', '%'] ++ y) =
        [['$'], ['%'], '$' :: x, '%' :: y] := by
      rw [e1, splitSeq_append _ _ _ (by simp), splitSeq_append _ _ _ (by simp),
        splitSeq_append _ _ _ (by simpa using hx),
        splitSeq_sepFree _ _ (by simpa using hy)]
    rw [hsplit]
    refine ⟨⟨String.mk x, String.mk y, goOf [], goOf [], GoTime.zero, 0⟩, ?_, rfl, rfl⟩
    simp [List.foldlM_cons, List.foldlM_nil, parser.scanToken, parser.initEvent,
      except_bind_ok, except_pure, show String.mk [] = "" from rfl]
  · unfold parser.parseSummary
    rw [hev']
    have hsplit' : parser.splitSeq ' ' ['$', ' ', '%'] = [['$'], ['%']] := by
      have e2 : (['$', ' ', '%'] : List Char) = ['$'] ++ ' ' :: ['%'] := by simp
      rw [e2, splitSeq_append _ _ _ (by simp), splitSeq_sepFree _ _ (by simp)]
    rw [hsplit']
    rfl

/-- C10 witness: the summary `"$ % $x %y"` scans to project `x` and activity
`y` with no error, and the summary `"$ %"` fails the missing check. -/
theorem scan_bare_sigils_witness :
    ((' ' ∉ (['x'] : List Char)) ∧ (' ' ∉ (['y'] : List Char)) ∧
      (calendarapi.Event.mk "$ % $x %y" "" "").summary.toList =
        ['$', ' ', '%', ' ', '$'] ++ ['x'] ++ [' ', '%'] ++ ['y'] ∧
      (calendarapi.Event.mk "$ %" "" "").summary.toList = ['$', ' ', '%']) ∧
    ((∃ e', (parser.splitSeq ' '
          (calendarapi.Event.mk "$ % $x %y" "" "").summary.toList).foldlM
          (parser.scanToken (calendarapi.Event.mk "$ % $x %y" "" ""))
          parser.initEvent = .ok e' ∧
        e'.project = String.mk ['x'] ∧ e'.activity = String.mk ['y']) ∧
      parser.parseSummary (calendarapi.Event.mk "$ %" "" "") parser.initEvent =
        .error (.missingProjectOrActivity (calendarapi.Event.mk "$ %" "" ""))) :=
  ⟨⟨by decide, by decide, by decide, by decide⟩,
    scan_bare_sigils ['x'] ['y'] (calendarapi.Event.mk "$ % $x %y" "" "")
      (calendarapi.Event.mk "$ %" "" "") (by decide) (by decide) (by decide) (by decide)⟩

/-! ## Association-list lemmas -/

open pipeline

theorem alookup_nil {β : Type} (p : String) : alookup p ([] : List (String × β)) = none := rfl

theorem alookup_cons {β : Type} (p k : String) (v : β) (rest : List (String × β)) :
    alookup p ((k, v) :: rest) = if k = p then some v else alookup p rest := by
  by_cases h : k = p
  · simp [alookup, List.find?_cons, h]
  · simp [alookup, List.find?_cons, h]

theorem alookup_isSome_iff_mem {β : Type} (p : String) (l : List (String × β)) :
    (alookup p l).isSome ↔ p ∈ l.map Prod.fst := by
  induction l with
  | nil => simp [alookup_nil]
  | cons kv rest ih =>
    obtain ⟨k, v⟩ := kv
    rw [alookup_cons]
    by_cases h : k = p
    · simp [h]
    · simp [h, ih, Ne.symm h]

theorem map_lookupD_keys {β : Type} (B : List (String × β)) (d : β)
    (hnd : (B.map Prod.fst).Nodup) :
    (B.map Prod.fst).map (fun k => lookupD k B d) = B.map Prod.snd := by
  induction B with
  | nil => rfl
  | cons kv rest ih =>
    obtain ⟨k0, v0⟩ := kv
    simp only [List.map_cons, List.nodup_cons] at hnd ⊢
    rw [show lookupD k0 ((k0, v0) :: rest) d = v0 by simp [lookupD, alookup_cons]]
    have h2 : (rest.map Prod.fst).map (fun k => lookupD k ((k0, v0) :: rest) d) =
        (rest.map Prod.fst).map (fun k => lookupD k rest d) := by
      apply List.map_congr_left
      intro k hk
      have hne : k0 ≠ k := fun h => hnd.1 (h ▸ hk)
      simp [lookupD, alookup_cons, hne]
    rw [h2, ih hnd.2]

/-! ## Total-stage lemmas -/

theorem alookup_insertTotal_other (ev : parser.Event) (p : String)
    (l : List (String × parser.Event)) (h : p ≠ ev.project) :
    alookup p (pipeline.insertTotal ev l) = alookup p l := by
  induction l with
  | nil => simp [pipeline.insertTotal, alookup_cons, alookup_nil, Ne.symm h]
  | cons kv rest ih =>
    obtain ⟨k, acc⟩ := kv
    by_cases hk : k = ev.project
    · subst hk
      have hins : insertTotal ev ((ev.project, acc) :: rest) =
          (ev.project, { acc with duration := acc.duration + ev.duration }) :: rest := by
        simp [pipeline.insertTotal]
      rw [hins, alookup_cons, alookup_cons, if_neg (fun hh => h hh.symm),
        if_neg (fun hh => h hh.symm)]
    · have hins : insertTotal ev ((k, acc) :: rest) = (k, acc) :: insertTotal ev rest := by
        simp [pipeline.insertTotal, hk]
      rw [hins, alookup_cons, alookup_cons, ih]

theorem alookup_insertTotal_self (ev : parser.Event) (l : List (String × parser.Event)) :
    alookup ev.project (pipeline.insertTotal ev l) =
      some (match alookup ev.project l with
        | none => { project := ev.project, activity := "", tags := goOf []
                    persons := goOf [], startTime := ev.startTime
                    duration := ev.duration }
        | some acc => { acc with duration := acc.duration + ev.duration }) := by
  induction l with
  | nil => simp [pipeline.insertTotal, alookup_cons, alookup_nil]
  | cons kv rest ih =>
    obtain ⟨k, acc⟩ := kv
    by_cases hk : k = ev.project
    · subst hk
      have hins : insertTotal ev ((ev.project, acc) :: rest) =
          (ev.project, { acc with duration := acc.duration + ev.duration }) :: rest := by
        simp [pipeline.insertTotal]
      rw [hins]
      simp [alookup_cons]
    · have hins : insertTotal ev ((k, acc) :: rest) = (k, acc) :: insertTotal ev rest := by
        simp [pipeline.insertTotal, hk]
      rw [hins, alookup_cons, if_neg hk, alookup_cons, if_neg hk, ih]

theorem keys_insertTotal (ev : parser.Event) (l : List (String × parser.Event)) :
    (pipeline.insertTotal ev l).map Prod.fst =
      if ev.project ∈ l.map Prod.fst then l.map Prod.fst
      else l.map Prod.fst ++ [ev.project] := by
  induction l with
  | nil => simp [pipeline.insertTotal]
  | cons kv rest ih =>
    obtain ⟨k, acc⟩ := kv
    by_cases hk : k = ev.project
    · subst hk
      simp [pipeline.insertTotal]
    · simp only [pipeline.insertTotal, if_neg hk, List.map_cons, ih]
      by_cases hmem : ev.project ∈ rest.map Prod.fst
      · simp [hmem, Ne.symm hk]
      · simp [hmem, Ne.symm hk]

theorem keys_insertTotal_nodup (ev : parser.Event) (l : List (String × parser.Event))
    (h : (l.map Prod.fst).Nodup) : ((pipeline.insertTotal ev l).map Prod.fst).Nodup := by
  rw [keys_insertTotal]
  by_cases hmem : ev.project ∈ l.map Prod.fst
  · simpa [hmem] using h
  · simp only [if_neg hmem]
    exact List.Nodup.append h (List.nodup_singleton _) (by simpa using hmem)

theorem buildTotal_append (evs : List parser.Event) (ev : parser.Event) :
    pipeline.buildTotal (evs ++ [ev]) = pipeline.insertTotal ev (pipeline.buildTotal evs) := by
  simp [pipeline.buildTotal, List.foldl_append]

theorem buildTotal_keys_nodup (evs : List parser.Event) :
    ((pipeline.buildTotal evs).map Prod.fst).Nodup := by
  induction evs using List.reverseRecOn with
  | nil => simp [pipeline.buildTotal]
  | append_singleton evs ev ih =>
    rw [buildTotal_append]
    exact keys_insertTotal_nodup ev _ ih

theorem alookup_buildTotal (evs : List parser.Event) (p : String) :
    alookup p (pipeline.buildTotal evs) =
      (evs.find? (fun e0 => e0.project == p)).map (fun ev0 =>
        { project := ev0.project, activity := "", tags := goOf [], persons := goOf []
          startTime := ev0.startTime
          duration := ((evs.filter (fun e0 => e0.project == p)).map
            (fun e0 => e0.duration)).sum }) := by
  induction evs using List.reverseRecOn with
  | nil => simp [pipeline.buildTotal, alookup_nil]
  | append_singleton evs ev ih =>
    rw [buildTotal_append]
    by_cases hp : ev.project = p
    · subst hp
      rw [alookup_insertTotal_self, ih]
      cases hfind : evs.find? (fun e0 => e0.project == ev.project) with
      | none =>
        have hfilter : evs.filter (fun e0 => e0.project == ev.project) = [] := by
          rw [List.filter_eq_nil_iff]
          intro a ha
          have := List.find?_eq_none.mp hfind a ha
          simpa using this
        have hfind2 : (evs ++ [ev]).find? (fun e0 => e0.project == ev.project) = some ev := by
          rw [List.find?_append, hfind]
          simp
        rw [hfind2]
        simp [hfilter]
      | some ev0 =>
        have hfind2 : (evs ++ [ev]).find? (fun e0 => e0.project == ev.project) = some ev0 := by
          rw [List.find?_append, hfind]
          rfl
        rw [hfind2]
        simp [List.filter_append]
    · rw [alookup_insertTotal_other ev p _ (fun h => hp h.symm), ih]
      have hfind2 : (evs ++ [ev]).find? (fun e0 => e0.project == p) =
          evs.find? (fun e0 => e0.project == p) := by
        rw [List.find?_append]
        cases hfind : evs.find? (fun e0 => e0.project == p) with
        | none => simp [hp]
        | some ev0 => rfl
      rw [hfind2]
      have hfilter2 : (evs ++ [ev]).filter (fun e0 => e0.project == p) =
          evs.filter (fun e0 => e0.project == p) := by
        simp [List.filter_append, hp]
      rw [hfilter2]

theorem buildTotal_keys_mem (evs : List parser.Event) (p : String) :
    p ∈ (pipeline.buildTotal evs).map Prod.fst ↔ p ∈ evs.map (fun ev => ev.project) := by
  rw [← alookup_isSome_iff_mem, alookup_buildTotal]
  rw [Option.isSome_map', List.find?_isSome]
  simp

theorem sortStrings_perm (l : List String) : List.Perm (sortStrings l) l :=
  List.perm_insertionSort _ l

theorem sortStrings_sorted (l : List String) : (sortStrings l).Sorted (· ≤ ·) :=
  List.sorted_insertionSort _ l

theorem sortStrings_pairwise_lt (l : List String) (h : l.Nodup) :
    (sortStrings l).Pairwise (· < ·) := by
  have hs := sortStrings_sorted l
  have hn : (sortStrings l).Nodup := (sortStrings_perm l).nodup_iff.mpr h
  exact (hs.and hn).imp (fun hab => lt_of_le_of_ne hab.1 hab.2)

theorem maybeComputeTotal_true_eq (inputs : GoSlice parser.Event) :
    pipeline.maybeComputeTotal true inputs =
      goOf ((sortStrings ((buildTotal (sliceList inputs)).map Prod.fst)).map
        (fun k => lookupD k (buildTotal (sliceList inputs)) dummyEvent)) := rfl

/-- For every key present in the accumulator map, the looked-up record is
the synthesized per-project total. -/
theorem buildTotal_lookup_mem (evs : List parser.Event) (k : String)
    (hk : k ∈ (buildTotal evs).map Prod.fst) :
    ∃ ev0, evs.find? (fun e0 => e0.project == k) = some ev0 ∧ ev0.project = k ∧
      lookupD k (buildTotal evs) dummyEvent =
        { project := ev0.project, activity := "", tags := goOf [], persons := goOf []
          startTime := ev0.startTime
          duration := ((evs.filter (fun e0 => e0.project == k)).map
            (fun e0 => e0.duration)).sum } := by
  have hsome : (alookup k (buildTotal evs)).isSome := (alookup_isSome_iff_mem k _).mpr hk
  rw [alookup_buildTotal] at hsome
  cases hfind : evs.find? (fun e0 => e0.project == k) with
  | none => rw [hfind] at hsome; simp at hsome
  | some ev0 =>
    refine ⟨ev0, rfl, by simpa using List.find?_some hfind, ?_⟩
    unfold lookupD
    rw [alookup_buildTotal, hfind]
    rfl

/-- C4: for every record list the total stage emits one record per distinct
project, with `StartTime` the first-encountered record's start time
(first-write-wins), `Duration` the per-project sum, `Activity` empty and
`Tags`/`Persons` the non-nil empty slice; the output is sorted ascending by
project, and with zero input records it is the non-nil empty slice. -/
theorem maybeComputeTotal_spec (inputs : GoSlice parser.Event) :
    ∃ out : List parser.Event,
      pipeline.maybeComputeTotal true inputs = goOf out ∧
      (∀ r ∈ out, r.activity = "" ∧ r.tags = goOf [] ∧ r.persons = goOf [] ∧
        ((sliceList inputs).find? (fun ev => ev.project == r.project)).map
            (fun ev0 => ev0.startTime) = some r.startTime ∧
        r.duration = (((sliceList inputs).filter (fun ev => ev.project == r.project)).map
            (fun ev => ev.duration)).sum) ∧
      (∀ p, (∃ r ∈ out, r.project = p) ↔ p ∈ (sliceList inputs).map (fun ev => ev.project)) ∧
      out.Pairwise (fun a b => a.project < b.project) ∧
      (sliceList inputs = [] → out = []) := by
  refine ⟨(sortStrings ((buildTotal (sliceList inputs)).map Prod.fst)).map
      (fun k => lookupD k (buildTotal (sliceList inputs)) dummyEvent),
    maybeComputeTotal_true_eq inputs, ?_, ?_, ?_, ?_⟩
  · intro r hr
    obtain ⟨k, hkmem, rfl⟩ := List.mem_map.mp hr
    have hk : k ∈ (buildTotal (sliceList inputs)).map Prod.fst :=
      (sortStrings_perm _).mem_iff.mp hkmem
    obtain ⟨ev0, hfind, hproj, hlook⟩ := buildTotal_lookup_mem _ k hk
    rw [hlook]
    refine ⟨rfl, rfl, rfl, ?_, ?_⟩
    · simp only [hproj, hfind]
      rfl
    · simp only [hproj]
  · intro p
    constructor
    · rintro ⟨r, hr, rfl⟩
      obtain ⟨k, hkmem, rfl⟩ := List.mem_map.mp hr
      have hk : k ∈ (buildTotal (sliceList inputs)).map Prod.fst :=
        (sortStrings_perm _).mem_iff.mp hkmem
      obtain ⟨ev0, hfind, hproj, hlook⟩ := buildTotal_lookup_mem _ k hk
      rw [hlook]
      simpa [hproj] using (buildTotal_keys_mem (sliceList inputs) k).mp hk
    · intro hp
      have hk : p ∈ (buildTotal (sliceList inputs)).map Prod.fst :=
        (buildTotal_keys_mem (sliceList inputs) p).mpr hp
      obtain ⟨ev0, hfind, hproj, hlook⟩ := buildTotal_lookup_mem _ p hk
      refine ⟨lookupD p (buildTotal (sliceList inputs)) dummyEvent, ?_, ?_⟩
      · exact List.mem_map_of_mem _ ((sortStrings_perm _).mem_iff.mpr hk)
      · rw [hlook]; exact hproj
  · rw [List.pairwise_map]
    have hpl := sortStrings_pairwise_lt _ (buildTotal_keys_nodup (sliceList inputs))
    refine List.Pairwise.imp_of_mem ?_ hpl
    intro a b ha hb hab
    have hka : a ∈ (buildTotal (sliceList inputs)).map Prod.fst :=
      (sortStrings_perm _).mem_iff.mp ha
    have hkb : b ∈ (buildTotal (sliceList inputs)).map Prod.fst :=
      (sortStrings_perm _).mem_iff.mp hb
    obtain ⟨ea, -, hpa, hla⟩ := buildTotal_lookup_mem _ a hka
    obtain ⟨eb, -, hpb, hlb⟩ := buildTotal_lookup_mem _ b hkb
    rw [hla, hlb]
    simpa [hpa, hpb] using hab
  · intro h
    rw [h]
    rfl

theorem insertTotal_sum (ev : parser.Event) (l : List (String × parser.Event)) :
    ((pipeline.insertTotal ev l).map (fun kv => kv.2.duration)).sum =
      (l.map (fun kv => kv.2.duration)).sum + ev.duration := by
  induction l with
  | nil => simp [pipeline.insertTotal]
  | cons kv rest ih =>
    obtain ⟨k, acc⟩ := kv
    by_cases hk : k = ev.project
    · subst hk
      have hins : insertTotal ev ((ev.project, acc) :: rest) =
          (ev.project, { acc with duration := acc.duration + ev.duration }) :: rest := by
        simp [pipeline.insertTotal]
      rw [hins]
      simp
      ring
    · have hins : insertTotal ev ((k, acc) :: rest) = (k, acc) :: insertTotal ev rest := by
        simp [pipeline.insertTotal, hk]
      rw [hins]
      simp [ih]
      ring

theorem buildTotal_sum (evs : List parser.Event) :
    ((buildTotal evs).map (fun kv => kv.2.duration)).sum =
      (evs.map (fun e => e.duration)).sum := by
  induction evs using List.reverseRecOn with
  | nil => rfl
  | append_singleton evs ev ih =>
    rw [buildTotal_append, insertTotal_sum, ih]
    simp

/-- C7: the total stage conserves the duration sum and emits exactly one
record per distinct project of its input. -/
theorem maybeComputeTotal_conserves (inputs : GoSlice parser.Event) :
    ∃ out : List parser.Event,
      pipeline.maybeComputeTotal true inputs = goOf out ∧
      (out.map (fun r => r.duration)).sum =
        ((sliceList inputs).map (fun ev => ev.duration)).sum ∧
      out.length = ((sliceList inputs).map (fun ev => ev.project)).dedup.length := by
  refine ⟨(sortStrings ((buildTotal (sliceList inputs)).map Prod.fst)).map
      (fun k => lookupD k (buildTotal (sliceList inputs)) dummyEvent),
    maybeComputeTotal_true_eq inputs, ?_, ?_⟩
  · have hperm2 : List.Perm
        (((sortStrings ((buildTotal (sliceList inputs)).map Prod.fst)).map
          (fun k => lookupD k (buildTotal (sliceList inputs)) dummyEvent)).map
          (fun r => r.duration))
        ((((buildTotal (sliceList inputs)).map Prod.fst).map
          (fun k => lookupD k (buildTotal (sliceList inputs)) dummyEvent)).map
          (fun r => r.duration)) :=
      ((sortStrings_perm _).map _).map _
    rw [hperm2.sum_eq, map_lookupD_keys _ _ (buildTotal_keys_nodup (sliceList inputs)),
      List.map_map]
    exact buildTotal_sum _
  · rw [List.length_map, (sortStrings_perm _).length_eq]
    have h1 : ((buildTotal (sliceList inputs)).map Prod.fst).Nodup :=
      buildTotal_keys_nodup (sliceList inputs)
    have h2 : (((sliceList inputs).map (fun ev => ev.project)).dedup).Nodup :=
      List.nodup_dedup _
    have hmm : ∀ p, p ∈ (buildTotal (sliceList inputs)).map Prod.fst ↔
        p ∈ ((sliceList inputs).map (fun ev => ev.project)).dedup := by
      intro p
      rw [List.mem_dedup]
      exact buildTotal_keys_mem _ p
    exact (List.perm_of_nodup_nodup_toFinset_eq h1 h2
      (by ext p; simp [hmm p])).length_eq

/-! ## Aggregation-map lemmas -/

theorem alookup_bumpInner_self (p : String) (d : Int) (m : List (String × Int)) :
    alookup p (bumpInner p d m) = some ((alookup p m).getD 0 + d) := by
  induction m with
  | nil => simp [pipeline.bumpInner, alookup_cons, alookup_nil]
  | cons kv rest ih =>
    obtain ⟨k, v⟩ := kv
    by_cases hk : k = p
    · subst hk
      have hins : bumpInner k d ((k, v) :: rest) = (k, v + d) :: rest := by
        simp [pipeline.bumpInner]
      rw [hins, alookup_cons, alookup_cons]
      simp
    · have hins : bumpInner p d ((k, v) :: rest) = (k, v) :: bumpInner p d rest := by
        simp [pipeline.bumpInner, hk]
      rw [hins, alookup_cons, if_neg hk, alookup_cons, if_neg hk, ih]

theorem alookup_bumpInner_other (p q : String) (d : Int) (m : List (String × Int))
    (h : q ≠ p) : alookup q (bumpInner p d m) = alookup q m := by
  induction m with
  | nil => simp [pipeline.bumpInner, alookup_cons, alookup_nil, Ne.symm h]
  | cons kv rest ih =>
    obtain ⟨k, v⟩ := kv
    by_cases hk : k = p
    · subst hk
      have hins : bumpInner k d ((k, v) :: rest) = (k, v + d) :: rest := by
        simp [pipeline.bumpInner]
      rw [hins, alookup_cons, alookup_cons, if_neg (fun hh => h hh.symm),
        if_neg (fun hh => h hh.symm)]
    · have hins : bumpInner p d ((k, v) :: rest) = (k, v) :: bumpInner p d rest := by
        simp [pipeline.bumpInner, hk]
      rw [hins, alookup_cons, alookup_cons, ih]

theorem keys_bumpInner (p : String) (d : Int) (m : List (String × Int)) :
    (bumpInner p d m).map Prod.fst =
      if p ∈ m.map Prod.fst then m.map Prod.fst else m.map Prod.fst ++ [p] := by
  induction m with
  | nil => simp [pipeline.bumpInner]
  | cons kv rest ih =>
    obtain ⟨k, v⟩ := kv
    by_cases hk : k = p
    · subst hk
      simp [pipeline.bumpInner]
    · have hins : bumpInner p d ((k, v) :: rest) = (k, v) :: bumpInner p d rest := by
        simp [pipeline.bumpInner, hk]
      rw [hins]
      simp only [List.map_cons, ih]
      by_cases hmem : p ∈ rest.map Prod.fst
      · simp [hmem, hk, Ne.symm hk]
      · simp [hmem, hk, Ne.symm hk]

theorem keys_bumpInner_nodup (p : String) (d : Int) (m : List (String × Int))
    (h : (m.map Prod.fst).Nodup) : ((bumpInner p d m).map Prod.fst).Nodup := by
  rw [keys_bumpInner]
  by_cases hmem : p ∈ m.map Prod.fst
  · simpa [hmem] using h
  · simp only [if_neg hmem]
    exact List.Nodup.append h (List.nodup_singleton _) (by simpa using hmem)

theorem sum_bumpInner (p : String) (d : Int) (m : List (String × Int)) :
    ((bumpInner p d m).map (fun kv => kv.2)).sum = (m.map (fun kv => kv.2)).sum + d := by
  induction m with
  | nil => simp [pipeline.bumpInner]
  | cons kv rest ih =>
    obtain ⟨k, v⟩ := kv
    by_cases hk : k = p
    · subst hk
      have hins : bumpInner k d ((k, v) :: rest) = (k, v + d) :: rest := by
        simp [pipeline.bumpInner]
      rw [hins]
      simp
      ring
    · have hins : bumpInner p d ((k, v) :: rest) = (k, v) :: bumpInner p d rest := by
        simp [pipeline.bumpInner, hk]
      rw [hins]
      simp [ih]
      ring

theorem alookup_bumpOuter_self (tk p : String) (d : Int)
    (s : List (String × List (String × Int))) :
    alookup tk (bumpOuter tk p d s) =
      some (bumpInner p d ((alookup tk s).getD [])) := by
  induction s with
  | nil => simp [pipeline.bumpOuter, alookup_cons, alookup_nil]
  | cons kv rest ih =>
    obtain ⟨k, m⟩ := kv
    by_cases hk : k = tk
    · subst hk
      have hins : bumpOuter k p d ((k, m) :: rest) = (k, bumpInner p d m) :: rest := by
        simp [pipeline.bumpOuter]
      rw [hins, alookup_cons, alookup_cons]
      simp
    · have hins : bumpOuter tk p d ((k, m) :: rest) = (k, m) :: bumpOuter tk p d rest := by
        simp [pipeline.bumpOuter, hk]
      rw [hins, alookup_cons, if_neg hk, alookup_cons, if_neg hk, ih]

theorem alookup_bumpOuter_other (tk tq p : String) (d : Int)
    (s : List (String × List (String × Int))) (h : tq ≠ tk) :
    alookup tq (bumpOuter tk p d s) = alookup tq s := by
  induction s with
  | nil => simp [pipeline.bumpOuter, alookup_cons, alookup_nil, Ne.symm h]
  | cons kv rest ih =>
    obtain ⟨k, m⟩ := kv
    by_cases hk : k = tk
    · subst hk
      have hins : bumpOuter k p d ((k, m) :: rest) = (k, bumpInner p d m) :: rest := by
        simp [pipeline.bumpOuter]
      rw [hins, alookup_cons, alookup_cons, if_neg (fun hh => h hh.symm),
        if_neg (fun hh => h hh.symm)]
    · have hins : bumpOuter tk p d ((k, m) :: rest) = (k, m) :: bumpOuter tk p d rest := by
        simp [pipeline.bumpOuter, hk]
      rw [hins, alookup_cons, alookup_cons, ih]

theorem keys_bumpOuter (tk p : String) (d : Int)
    (s : List (String × List (String × Int))) :
    (bumpOuter tk p d s).map Prod.fst =
      if tk ∈ s.map Prod.fst then s.map Prod.fst else s.map Prod.fst ++ [tk] := by
  induction s with
  | nil => simp [pipeline.bumpOuter]
  | cons kv rest ih =>
    obtain ⟨k, m⟩ := kv
    by_cases hk : k = tk
    · subst hk
      simp [pipeline.bumpOuter]
    · have hins : bumpOuter tk p d ((k, m) :: rest) = (k, m) :: bumpOuter tk p d rest := by
        simp [pipeline.bumpOuter, hk]
      rw [hins]
      simp only [List.map_cons, ih]
      by_cases hmem : tk ∈ rest.map Prod.fst
      · simp [hmem, hk, Ne.symm hk]
      · simp [hmem, hk, Ne.symm hk]

theorem keys_bumpOuter_nodup (tk p : String) (d : Int)
    (s : List (String × List (String × Int)))
    (h : (s.map Prod.fst).Nodup) : ((bumpOuter tk p d s).map Prod.fst).Nodup := by
  rw [keys_bumpOuter]
  by_cases hmem : tk ∈ s.map Prod.fst
  · simpa [hmem] using h
  · simp only [if_neg hmem]
    exact List.Nodup.append h (List.nodup_singleton _) (by simpa using hmem)

theorem sum_bumpOuter (tk p : String) (d : Int)
    (s : List (String × List (String × Int))) :
    ((bumpOuter tk p d s).map (fun kv => (kv.2.map (fun e => e.2)).sum)).sum =
      (s.map (fun kv => (kv.2.map (fun e => e.2)).sum)).sum + d := by
  induction s with
  | nil => simp [pipeline.bumpOuter, pipeline.bumpInner]
  | cons kv rest ih =>
    obtain ⟨k, m⟩ := kv
    by_cases hk : k = tk
    · subst hk
      have hins : bumpOuter k p d ((k, m) :: rest) = (k, bumpInner p d m) :: rest := by
        simp [pipeline.bumpOuter]
      rw [hins]
      simp [sum_bumpInner]
      ring
    · have hins : bumpOuter tk p d ((k, m) :: rest) = (k, m) :: bumpOuter tk p d rest := by
        simp [pipeline.bumpOuter, hk]
      rw [hins]
      simp [ih]
      ring

/-! ## buildSums lemmas -/

theorem buildSums_append (fmt : GoTime → String) (evs : List parser.Event)
    (ev : parser.Event) :
    buildSums fmt (evs ++ [ev]) =
      bumpOuter (fmt ev.startTime) ev.project ev.duration (buildSums fmt evs) := by
  simp [pipeline.buildSums, List.foldl_append]

theorem buildSums_keys_nodup (fmt : GoTime → String) (evs : List parser.Event) :
    ((buildSums fmt evs).map Prod.fst).Nodup := by
  induction evs using List.reverseRecOn with
  | nil => simp [pipeline.buildSums]
  | append_singleton evs ev ih =>
    rw [buildSums_append]
    exact keys_bumpOuter_nodup _ _ _ _ ih

theorem buildSums_inner_nodup (fmt : GoTime → String) (evs : List parser.Event)
    (tk : String) :
    ((((alookup tk (buildSums fmt evs)).getD []).map Prod.fst)).Nodup := by
  induction evs using List.reverseRecOn with
  | nil => simp [pipeline.buildSums, alookup_nil]
  | append_singleton evs ev ih =>
    rw [buildSums_append]
    by_cases htk : tk = fmt ev.startTime
    · subst htk
      rw [alookup_bumpOuter_self]
      simpa using keys_bumpInner_nodup _ _ _ ih
    · rw [alookup_bumpOuter_other _ _ _ _ _ htk]
      exact ih

theorem buildSums_sum (fmt : GoTime → String) (evs : List parser.Event) :
    ((buildSums fmt evs).map (fun kv => (kv.2.map (fun e => e.2)).sum)).sum =
      (evs.map (fun ev => ev.duration)).sum := by
  induction evs using List.reverseRecOn with
  | nil => rfl
  | append_singleton evs ev ih =>
    rw [buildSums_append, sum_bumpOuter, ih]
    simp

theorem buildSums_keys_mem (fmt : GoTime → String) (evs : List parser.Event)
    (tk : String) :
    tk ∈ (buildSums fmt evs).map Prod.fst ↔ ∃ ev ∈ evs, fmt ev.startTime = tk := by
  induction evs using List.reverseRecOn with
  | nil => simp [pipeline.buildSums]
  | append_singleton evs ev ih =>
    rw [buildSums_append, keys_bumpOuter]
    by_cases hmem : fmt ev.startTime ∈ (buildSums fmt evs).map Prod.fst
    · rw [if_pos hmem, ih]
      constructor
      · rintro ⟨e0, he0, rfl⟩; exact ⟨e0, by simp [he0], rfl⟩
      · rintro ⟨e0, he0, rfl⟩
        have he0' : e0 ∈ evs ∨ e0 = ev := by simpa using he0
        rcases he0' with h | rfl
        · exact ⟨e0, h, rfl⟩
        · exact ih.mp hmem
    · rw [if_neg hmem]
      simp only [List.mem_append, List.mem_singleton, ih]
      constructor
      · rintro (⟨e0, he0, rfl⟩ | rfl)
        · exact ⟨e0, by simp [he0], rfl⟩
        · exact ⟨ev, by simp, rfl⟩
      · rintro ⟨e0, he0, rfl⟩
        have he0' : e0 ∈ evs ∨ e0 = ev := by simpa using he0
        rcases he0' with h | rfl
        · exact Or.inl ⟨e0, h, rfl⟩
        · exact Or.inr rfl

theorem buildSums_inner_mem (fmt : GoTime → String) (evs : List parser.Event)
    (tk p : String) :
    p ∈ ((alookup tk (buildSums fmt evs)).getD []).map Prod.fst ↔
      ∃ ev ∈ evs, fmt ev.startTime = tk ∧ ev.project = p := by
  induction evs using List.reverseRecOn with
  | nil => simp [pipeline.buildSums, alookup_nil]
  | append_singleton evs ev ih =>
    rw [buildSums_append]
    by_cases htk : tk = fmt ev.startTime
    · subst htk
      rw [alookup_bumpOuter_self]
      rw [Option.getD_some, keys_bumpInner]
      by_cases hmem : ev.project ∈ ((alookup (fmt ev.startTime) (buildSums fmt evs)).getD []).map Prod.fst
      · rw [if_pos hmem, ih]
        constructor
        · rintro ⟨e0, he0, h1, rfl⟩; exact ⟨e0, by simp [he0], h1, rfl⟩
        · rintro ⟨e0, he0, h1, rfl⟩
          have he0' : e0 ∈ evs ∨ e0 = ev := by simpa using he0
          rcases he0' with h | rfl
          · exact ⟨e0, h, h1, rfl⟩
          · exact ih.mp hmem
      · rw [if_neg hmem]
        simp only [List.mem_append, List.mem_singleton, ih]
        constructor
        · rintro (⟨e0, he0, h1, rfl⟩ | rfl)
          · exact ⟨e0, by simp [he0], h1, rfl⟩
          · exact ⟨ev, by simp, rfl, rfl⟩
        · rintro ⟨e0, he0, h1, rfl⟩
          have he0' : e0 ∈ evs ∨ e0 = ev := by simpa using he0
          rcases he0' with h | rfl
          · exact Or.inl ⟨e0, h, h1, rfl⟩
          · exact Or.inr rfl
    · rw [alookup_bumpOuter_other _ _ _ _ _ htk, ih]
      constructor
      · rintro ⟨e0, he0, h1, rfl⟩; exact ⟨e0, by simp [he0], h1, rfl⟩
      · rintro ⟨e0, he0, h1, rfl⟩
        have he0' : e0 ∈ evs ∨ e0 = ev := by simpa using he0
        rcases he0' with h | rfl
        · exact ⟨e0, h, h1, rfl⟩
        · exact absurd h1 (fun hh => htk hh.symm)

theorem buildSums_value (fmt : GoTime → String) (evs : List parser.Event)
    (tk p : String) :
    (alookup p ((alookup tk (buildSums fmt evs)).getD [])).getD 0 =
      ((evs.filter (fun ev => fmt ev.startTime == tk && ev.project == p)).map
        (fun ev => ev.duration)).sum := by
  induction evs using List.reverseRecOn with
  | nil => simp [pipeline.buildSums, alookup_nil]
  | append_singleton evs ev ih =>
    rw [buildSums_append, List.filter_append, List.map_append, List.sum_append]
    by_cases htk : tk = fmt ev.startTime
    · subst htk
      rw [alookup_bumpOuter_self, Option.getD_some]
      by_cases hp : p = ev.project
      · subst hp
        rw [alookup_bumpInner_self, Option.getD_some, ih]
        simp
      · rw [alookup_bumpInner_other _ _ _ _ hp, ih]
        have hne : ev.project ≠ p := fun hh => hp hh.symm
        have hfil : (List.filter (fun e0 => fmt e0.startTime == fmt ev.startTime
            && e0.project == p) [ev]) = [] := by
          simp [hne]
        rw [hfil]
        simp
    · rw [alookup_bumpOuter_other _ _ _ _ _ htk, ih]
      have hne : fmt ev.startTime ≠ tk := fun hh => htk hh.symm
      have hfil : (List.filter (fun e0 =>
          fmt e0.startTime == tk && e0.project == p) [ev]) = [] := by
        simp [hne]
      rw [hfil]
      simp

/-! ## Emission lemmas -/

theorem lookupD_eq {β : Type} (k : String) (l : List (String × β)) (d : β) :
    lookupD k l d = (alookup k l).getD d := rfl

theorem foldl_nested_goAppend {α β γ : Type} (f : β → γ → α) (g : β → List γ)
    (L : List β) (acc : GoSlice α) :
    sliceList (L.foldl
      (fun acc x => (g x).foldl (fun acc2 y => goAppend acc2 (f x y)) acc) acc) =
      sliceList acc ++ (L.map (fun x => (g x).map (f x))).flatten := by
  induction L generalizing acc with
  | nil => simp
  | cons x xs ih =>
    rw [List.foldl_cons, ih, foldl_goAppend_map (f x) (g x) acc]
    simp [List.append_assoc]

/-- The record emitted by `maybeAggregate` for the bucket `(tk, p)`. -/
def bucketRecord (parse : String → GoTime) (sums : List (String × List (String × Int)))
    (tk p : String) : parser.Event :=
  { project := p, activity := "", tags := goNil, persons := goNil
    startTime := parse tk, duration := lookupD p (lookupD tk sums []) 0 }

theorem emitAggregates_toList (parse : String → GoTime)
    (sums : List (String × List (String × Int))) :
    sliceList (emitAggregates parse sums) =
      ((sortStrings (sums.map Prod.fst)).map (fun tk =>
        (sortStrings ((lookupD tk sums []).map Prod.fst)).map
          (fun p => bucketRecord parse sums tk p))).flatten := by
  have h := foldl_nested_goAppend
    (f := fun tk p => bucketRecord parse sums tk p)
    (g := fun tk => sortStrings ((lookupD tk sums []).map Prod.fst))
    (sortStrings (sums.map Prod.fst)) goNil
  simpa only [pipeline.emitAggregates, bucketRecord, sliceList_goNil,
    List.nil_append] using h

theorem inner_emit_sum (sums : List (String × List (String × Int))) (tk : String)
    (hnd : ((lookupD tk sums []).map Prod.fst).Nodup) :
    ((sortStrings ((lookupD tk sums []).map Prod.fst)).map
      (fun p => lookupD p (lookupD tk sums []) 0)).sum =
      ((lookupD tk sums []).map (fun e => e.2)).sum := by
  have hperm := (sortStrings_perm ((lookupD tk sums []).map Prod.fst)).map
    (fun p => lookupD p (lookupD tk sums []) 0)
  rw [hperm.sum_eq, map_lookupD_keys _ _ hnd]

theorem sum_map_flatten {α : Type} (M : List (List α)) (f : α → Int) :
    ((M.flatten).map f).sum = (M.map (fun l => (l.map f).sum)).sum := by
  induction M with
  | nil => rfl
  | cons x xs ih =>
    simp [ih]
    rfl

theorem emit_build_sum (fmt : GoTime → String) (parse : String → GoTime)
    (evs : List parser.Event) :
    ((sliceList (emitAggregates parse (buildSums fmt evs))).map
      (fun r => r.duration)).sum = (evs.map (fun ev => ev.duration)).sum := by
  rw [emitAggregates_toList, sum_map_flatten]
  have hcongr : ∀ tk,
      (((sortStrings (((lookupD tk (buildSums fmt evs) [])).map Prod.fst)).map
        (fun p => bucketRecord parse (buildSums fmt evs) tk p)).map
        (fun r => r.duration)).sum =
      ((lookupD tk (buildSums fmt evs) []).map (fun e => e.2)).sum := by
    intro tk
    rw [List.map_map]
    have hnd : ((lookupD tk (buildSums fmt evs) []).map Prod.fst).Nodup := by
      rw [lookupD_eq]
      exact buildSums_inner_nodup fmt evs tk
    have := inner_emit_sum (buildSums fmt evs) tk hnd
    simpa [bucketRecord, Function.comp] using this
  have hmapped : ((sortStrings ((buildSums fmt evs).map Prod.fst)).map
      (fun tk => (sortStrings (((lookupD tk (buildSums fmt evs) [])).map Prod.fst)).map
        (fun p => bucketRecord parse (buildSums fmt evs) tk p))).map
      (fun l => (l.map (fun r => r.duration)).sum) =
      (sortStrings ((buildSums fmt evs).map Prod.fst)).map
        (fun tk => ((lookupD tk (buildSums fmt evs) []).map (fun e => e.2)).sum) := by
    rw [List.map_map]
    exact List.map_congr_left (fun tk _ => hcongr tk)
  rw [hmapped]
  have hperm := (sortStrings_perm ((buildSums fmt evs).map Prod.fst)).map
    (fun tk => ((lookupD tk (buildSums fmt evs) []).map (fun e => e.2)).sum)
  rw [hperm.sum_eq]
  have hcomp : ((buildSums fmt evs).map Prod.fst).map
      (fun tk => ((lookupD tk (buildSums fmt evs) []).map (fun e => e.2)).sum) =
      (((buildSums fmt evs).map Prod.fst).map
        (fun tk => lookupD tk (buildSums fmt evs) [])).map
        (fun m => (m.map (fun e => e.2)).sum) := by
    simp only [List.map_map]
    rfl
  rw [hcomp, map_lookupD_keys _ _ (buildSums_keys_nodup fmt evs), List.map_map]
  exact buildSums_sum fmt evs

/-- C6: for every record list reaching the aggregate stage with a valid
non-empty policy, the duration sum of the aggregated output equals the
duration sum of the input (duration is conserved across bucketing). -/
theorem maybeAggregate_conserves (policy : String)
    (hpol : policy = "daily" ∨ policy = "monthly") (inputs : GoSlice parser.Event) :
    ∃ s, pipeline.maybeAggregate policy inputs = .ok s ∧
      ((sliceList s).map (fun r => r.duration)).sum =
        ((sliceList inputs).map (fun ev => ev.duration)).sum := by
  rcases hpol with rfl | rfl
  · exact ⟨_, rfl, emit_build_sum fmtDaily parseDailyZ (sliceList inputs)⟩
  · exact ⟨_, rfl, emit_build_sum fmtMonthly parseMonthlyZ (sliceList inputs)⟩

/-- C6 witness: at policy `daily` on two concrete records the aggregation
succeeds and conserves the total duration. -/
theorem maybeAggregate_conserves_witness :
    (("daily" : String) = "daily" ∨ ("daily" : String) = "monthly") ∧
      (∃ s, pipeline.maybeAggregate "daily" (goOf [sampleEvent, sampleEvent]) = .ok s ∧
        ((sliceList s).map (fun r => r.duration)).sum =
          ((sliceList (goOf [sampleEvent, sampleEvent])).map (fun ev => ev.duration)).sum) :=
  ⟨Or.inl rfl, maybeAggregate_conserves "daily" (Or.inl rfl) (goOf [sampleEvent, sampleEvent])⟩

/-! ## Decimal-formatting lemmas -/

theorem pad_eq_small {w n : Nat} (h : n < 10) :
    pad w n = List.replicate (w - 1) '0' ++ [Nat.digitChar n] := by
  rw [pad.eq_def, dif_pos h]

theorem pad_eq_large {w n : Nat} (h : ¬n < 10) :
    pad w n = pad (w - 1) (n / 10) ++ [Nat.digitChar (n % 10)] := by
  rw [pad.eq_def, dif_neg h]

theorem digitChar_lt_digitChar (a b : Nat) :
    (Nat.digitChar (a % 10) < Nat.digitChar (b % 10)) ↔ a % 10 < b % 10 := by
  have H : ∀ x, x < 10 → ∀ y, y < 10 →
      ((Nat.digitChar x < Nat.digitChar y) ↔ x < y) := by decide
  exact H _ (Nat.mod_lt _ (by omega)) _ (Nat.mod_lt _ (by omega))

theorem digitChar_eq_digitChar (a b : Nat) :
    (Nat.digitChar (a % 10) = Nat.digitChar (b % 10)) ↔ a % 10 = b % 10 := by
  have H : ∀ x, x < 10 → ∀ y, y < 10 →
      ((Nat.digitChar x = Nat.digitChar y) ↔ x = y) := by decide
  exact H _ (Nat.mod_lt _ (by omega)) _ (Nat.mod_lt _ (by omega))

theorem digitChar_mod_isDigit (a : Nat) : (Nat.digitChar (a % 10)).isDigit = true := by
  have H : ∀ x, x < 10 → (Nat.digitChar x).isDigit = true := by decide
  exact H _ (Nat.mod_lt _ (by omega))

theorem dval_digitChar (a : Nat) : dval (Nat.digitChar (a % 10)) = a % 10 := by
  have H : ∀ x, x < 10 → dval (Nat.digitChar x) = x := by decide
  exact H _ (Nat.mod_lt _ (by omega))

theorem pad2_eq (n : Nat) (h : n < 100) :
    pad 2 n = [Nat.digitChar (n / 10 % 10), Nat.digitChar (n % 10)] := by
  by_cases h1 : n < 10
  · rw [pad_eq_small h1]
    have e1 : n / 10 % 10 = 0 := by omega
    have e2 : n % 10 = n := by omega
    rw [e1, e2]
    rfl
  · rw [pad_eq_large h1, pad_eq_small (show n / 10 < 10 by omega)]
    have e1 : n / 10 % 10 = n / 10 := by omega
    rw [e1]
    rfl

theorem pad3_eq (n : Nat) (h : n < 1000) :
    pad 3 n = [Nat.digitChar (n / 100 % 10), Nat.digitChar (n / 10 % 10),
      Nat.digitChar (n % 10)] := by
  by_cases h1 : n < 10
  · rw [pad_eq_small h1]
    have e1 : n / 100 % 10 = 0 := by omega
    have e2 : n / 10 % 10 = 0 := by omega
    have e3 : n % 10 = n := by omega
    rw [e1, e2, e3]
    rfl
  · rw [pad_eq_large h1, pad2_eq (n / 10) (by omega)]
    have e1 : n / 10 / 10 % 10 = n / 100 % 10 := by omega
    rw [e1]
    rfl

theorem pad4_eq (n : Nat) (h : n < 10000) :
    pad 4 n = [Nat.digitChar (n / 1000 % 10), Nat.digitChar (n / 100 % 10),
      Nat.digitChar (n / 10 % 10), Nat.digitChar (n % 10)] := by
  by_cases h1 : n < 10
  · rw [pad_eq_small h1]
    have e1 : n / 1000 % 10 = 0 := by omega
    have e2 : n / 100 % 10 = 0 := by omega
    have e3 : n / 10 % 10 = 0 := by omega
    have e4 : n % 10 = n := by omega
    rw [e1, e2, e3, e4]
    rfl
  · rw [pad_eq_large h1, pad3_eq (n / 10) (by omega)]
    have e1 : n / 10 / 100 % 10 = n / 1000 % 10 := by omega
    have e2 : n / 10 / 10 % 10 = n / 100 % 10 := by omega
    rw [e1, e2]
    rfl

theorem daysInMonth_le (y m : Nat) : daysInMonth y m ≤ 31 := by
  unfold daysInMonth
  split
  · split <;> omega
  · split <;> omega

theorem fmtDaily_toList (t : GoTime) (hy : t.year < 10000) (hm : t.month < 100)
    (hd : t.day < 100) :
    (fmtDaily t).toList =
      [Nat.digitChar (t.year / 1000 % 10), Nat.digitChar (t.year / 100 % 10),
       Nat.digitChar (t.year / 10 % 10), Nat.digitChar (t.year % 10), '-',
       Nat.digitChar (t.month / 10 % 10), Nat.digitChar (t.month % 10), '-',
       Nat.digitChar (t.day / 10 % 10), Nat.digitChar (t.day % 10)] := by
  unfold fmtDaily
  rw [pad4_eq _ hy, pad2_eq _ hm, pad2_eq _ hd]
  rfl

theorem fmtMonthly_toList (t : GoTime) (hy : t.year < 10000) (hm : t.month < 100) :
    (fmtMonthly t).toList =
      [Nat.digitChar (t.year / 1000 % 10), Nat.digitChar (t.year / 100 % 10),
       Nat.digitChar (t.year / 10 % 10), Nat.digitChar (t.year % 10), '-',
       Nat.digitChar (t.month / 10 % 10), Nat.digitChar (t.month % 10)] := by
  unfold fmtMonthly
  rw [pad4_eq _ hy, pad2_eq _ hm]
  rfl

/-! ## Round-trip of the bucket keys -/

theorem parseDaily_fmtDaily (t : GoTime) (hv : t.ValidCivil) :
    parseDaily (fmtDaily t) = some ⟨t.year, t.month, t.day, 0, 0, 0, 0⟩ := by
  obtain ⟨hy, hm1, hm2, hd1, hd2⟩ := hv
  have hy' : t.year < 10000 := by omega
  have hm' : t.month < 100 := by omega
  have hd' : t.day < 100 := by
    have := daysInMonth_le t.year t.month
    omega
  unfold parseDaily
  rw [fmtDaily_toList t hy' hm' hd']
  simp only [digitChar_mod_isDigit, dval_digitChar]
  have hY : ((t.year / 1000 % 10 * 10 + t.year / 100 % 10) * 10 + t.year / 10 % 10) * 10 +
      t.year % 10 = t.year := by omega
  have hM : t.month / 10 % 10 * 10 + t.month % 10 = t.month := by omega
  have hD : t.day / 10 % 10 * 10 + t.day % 10 = t.day := by omega
  rw [hY, hM, hD]
  have hcond : 1 ≤ t.month ∧ t.month ≤ 12 ∧ 1 ≤ t.day ∧
      t.day ≤ daysInMonth t.year t.month := ⟨hm1, hm2, hd1, hd2⟩
  rw [if_pos hcond]
  simp

theorem parseMonthly_fmtMonthly (t : GoTime) (hv : t.ValidCivil) :
    parseMonthly (fmtMonthly t) = some ⟨t.year, t.month, 1, 0, 0, 0, 0⟩ := by
  obtain ⟨hy, hm1, hm2, hd1, hd2⟩ := hv
  have hy' : t.year < 10000 := by omega
  have hm' : t.month < 100 := by omega
  unfold parseMonthly
  rw [fmtMonthly_toList t hy' hm']
  simp only [digitChar_mod_isDigit, dval_digitChar]
  have hY : ((t.year / 1000 % 10 * 10 + t.year / 100 % 10) * 10 + t.year / 10 % 10) * 10 +
      t.year % 10 = t.year := by omega
  have hM : t.month / 10 % 10 * 10 + t.month % 10 = t.month := by omega
  rw [hY, hM]
  have hcond : 1 ≤ t.month ∧ t.month ≤ 12 := ⟨hm1, hm2⟩
  rw [if_pos hcond]
  simp

theorem parseDailyZ_fmtDaily (t : GoTime) (hv : t.ValidCivil) :
    parseDailyZ (fmtDaily t) = periodStart "daily" t := by
  unfold parseDailyZ periodStart
  rw [parseDaily_fmtDaily t hv]
  rfl

theorem parseMonthlyZ_fmtMonthly (t : GoTime) (hv : t.ValidCivil) :
    parseMonthlyZ (fmtMonthly t) = periodStart "monthly" t := by
  unfold parseMonthlyZ periodStart
  rw [parseMonthly_fmtMonthly t hv]
  rfl

/-! ## Order bridges: string order of the keys is civil-date order -/

theorem string_eq_iff_toList (s u : String) : s = u ↔ s.toList = u.toList :=
  ⟨fun h => congrArg String.toList h, fun h => String.ext h⟩

theorem lex_cons_cons {r : Char → Char → Prop} (a b : Char) (l l' : List Char) :
    List.Lex r (a :: l) (b :: l') ↔ r a b ∨ (a = b ∧ List.Lex r l l') := by
  constructor
  · intro h
    cases h with
    | rel h => exact Or.inl h
    | cons h => exact Or.inr ⟨rfl, h⟩
  · rintro (h | ⟨rfl, h⟩)
    · exact List.Lex.rel h
    · exact List.Lex.cons h

theorem lex_nil_iff {r : Char → Char → Prop} : List.Lex r ([] : List Char) [] ↔ False := by
  constructor
  · intro h
    cases h
  · intro h
    exact h.elim

theorem lex4_split (x y : Nat) (P : Prop) (hx : x < 10000) (hy : y < 10000) :
    (x / 1000 % 10 < y / 1000 % 10 ∨ (x / 1000 % 10 = y / 1000 % 10 ∧
      (x / 100 % 10 < y / 100 % 10 ∨ (x / 100 % 10 = y / 100 % 10 ∧
        (x / 10 % 10 < y / 10 % 10 ∨ (x / 10 % 10 = y / 10 % 10 ∧
          (x % 10 < y % 10 ∨ (x % 10 = y % 10 ∧ P)))))))) ↔
      (x < y ∨ (x = y ∧ P)) := by
  have hxr : x = 1000 * (x / 1000 % 10) + 100 * (x / 100 % 10)
      + 10 * (x / 10 % 10) + x % 10 := by omega
  have hyr : y = 1000 * (y / 1000 % 10) + 100 * (y / 100 % 10)
      + 10 * (y / 10 % 10) + y % 10 := by omega
  by_cases hP : P
  · simp only [hP, and_true]
    omega
  · simp only [hP, and_false, or_false]
    omega

theorem lex2_split (x y : Nat) (P : Prop) (hx : x < 100) (hy : y < 100) :
    (x / 10 % 10 < y / 10 % 10 ∨ (x / 10 % 10 = y / 10 % 10 ∧
      (x % 10 < y % 10 ∨ (x % 10 = y % 10 ∧ P)))) ↔ (x < y ∨ (x = y ∧ P)) := by
  have hxr : x = 10 * (x / 10 % 10) + x % 10 := by omega
  have hyr : y = 10 * (y / 10 % 10) + y % 10 := by omega
  by_cases hP : P
  · simp only [hP, and_true]
    omega
  · simp only [hP, and_false, or_false]
    omega

theorem lex2_lt (x y : Nat) (hx : x < 100) (hy : y < 100) :
    (x / 10 % 10 < y / 10 % 10 ∨ (x / 10 % 10 = y / 10 % 10 ∧ x % 10 < y % 10)) ↔
      x < y := by
  have hxr : x = 10 * (x / 10 % 10) + x % 10 := by omega
  have hyr : y = 10 * (y / 10 % 10) + y % 10 := by omega
  omega

theorem civilLT_periodStart_daily (t t' : GoTime) :
    civilLT (periodStart "daily" t) (periodStart "daily" t') ↔
      (t.year < t'.year ∨ (t.year = t'.year ∧
        (t.month < t'.month ∨ (t.month = t'.month ∧ t.day < t'.day)))) := by
  unfold periodStart civilLT
  rw [if_pos rfl, if_pos rfl]

theorem civilLT_periodStart_monthly (t t' : GoTime) :
    civilLT (periodStart "monthly" t) (periodStart "monthly" t') ↔
      (t.year < t'.year ∨ (t.year = t'.year ∧ t.month < t'.month)) := by
  unfold periodStart civilLT
  rw [if_neg (by decide), if_neg (by decide)]
  simp

theorem fmtDaily_lt_iff (t t' : GoTime) (hv : t.ValidCivil) (hv' : t'.ValidCivil) :
    fmtDaily t < fmtDaily t' ↔
      civilLT (periodStart "daily" t) (periodStart "daily" t') := by
  obtain ⟨hy, hm1, hm2, hd1, hd2⟩ := hv
  obtain ⟨hy', hm1', hm2', hd1', hd2'⟩ := hv'
  have hdle := daysInMonth_le t.year t.month
  have hdle' := daysInMonth_le t'.year t'.month
  rw [String.lt_iff_toList_lt, fmtDaily_toList t (by omega) (by omega) (by omega),
    fmtDaily_toList t' (by omega) (by omega) (by omega), civilLT_periodStart_daily]
  show List.Lex (· < ·) _ _ ↔ _
  simp only [lex_cons_cons, lex_nil_iff, digitChar_lt_digitChar, digitChar_eq_digitChar,
    lt_self_iff_false, eq_self_iff_true, false_or, or_false, and_false, false_and,
    true_and, and_true]
  rw [lex2_lt t.day t'.day (by omega) (by omega),
    lex2_split t.month t'.month _ (by omega) (by omega),
    lex4_split t.year t'.year _ (by omega) (by omega)]

theorem fmtMonthly_lt_iff (t t' : GoTime) (hv : t.ValidCivil) (hv' : t'.ValidCivil) :
    fmtMonthly t < fmtMonthly t' ↔
      civilLT (periodStart "monthly" t) (periodStart "monthly" t') := by
  obtain ⟨hy, hm1, hm2, hd1, hd2⟩ := hv
  obtain ⟨hy', hm1', hm2', hd1', hd2'⟩ := hv'
  rw [String.lt_iff_toList_lt, fmtMonthly_toList t (by omega) (by omega),
    fmtMonthly_toList t' (by omega) (by omega), civilLT_periodStart_monthly]
  show List.Lex (· < ·) _ _ ↔ _
  simp only [lex_cons_cons, lex_nil_iff, digitChar_lt_digitChar, digitChar_eq_digitChar,
    lt_self_iff_false, eq_self_iff_true, false_or, or_false, and_false, false_and,
    true_and, and_true]
  rw [lex2_lt t.month t'.month (by omega) (by omega),
    lex4_split t.year t'.year _ (by omega) (by omega)]

theorem fmtDaily_eq_iff (t t' : GoTime) (hv : t.ValidCivil) (hv' : t'.ValidCivil) :
    fmtDaily t = fmtDaily t' ↔ periodStart "daily" t = periodStart "daily" t' := by
  obtain ⟨hy, hm1, hm2, hd1, hd2⟩ := hv
  obtain ⟨hy', hm1', hm2', hd1', hd2'⟩ := hv'
  have hdle := daysInMonth_le t.year t.month
  have hdle' := daysInMonth_le t'.year t'.month
  rw [string_eq_iff_toList, fmtDaily_toList t (by omega) (by omega) (by omega),
    fmtDaily_toList t' (by omega) (by omega) (by omega)]
  unfold periodStart
  rw [if_pos rfl, if_pos rfl]
  simp only [List.cons.injEq, digitChar_eq_digitChar, GoTime.mk.injEq, and_true, true_and,
    eq_self_iff_true]
  have r1 : t.year = 1000 * (t.year / 1000 % 10) + 100 * (t.year / 100 % 10)
      + 10 * (t.year / 10 % 10) + t.year % 10 := by omega
  have r2 : t'.year = 1000 * (t'.year / 1000 % 10) + 100 * (t'.year / 100 % 10)
      + 10 * (t'.year / 10 % 10) + t'.year % 10 := by omega
  have r3 : t.month = 10 * (t.month / 10 % 10) + t.month % 10 := by omega
  have r4 : t'.month = 10 * (t'.month / 10 % 10) + t'.month % 10 := by omega
  have r5 : t.day = 10 * (t.day / 10 % 10) + t.day % 10 := by omega
  have r6 : t'.day = 10 * (t'.day / 10 % 10) + t'.day % 10 := by omega
  constructor
  · intro h
    refine ⟨by omega, by omega, by omega⟩
  · intro h
    refine ⟨by omega, by omega, by omega, by omega, by omega, by omega, by omega,
      by omega⟩

theorem fmtMonthly_eq_iff (t t' : GoTime) (hv : t.ValidCivil) (hv' : t'.ValidCivil) :
    fmtMonthly t = fmtMonthly t' ↔ periodStart "monthly" t = periodStart "monthly" t' := by
  obtain ⟨hy, hm1, hm2, hd1, hd2⟩ := hv
  obtain ⟨hy', hm1', hm2', hd1', hd2'⟩ := hv'
  rw [string_eq_iff_toList, fmtMonthly_toList t (by omega) (by omega),
    fmtMonthly_toList t' (by omega) (by omega)]
  unfold periodStart
  rw [if_neg (by decide), if_neg (by decide)]
  simp only [List.cons.injEq, digitChar_eq_digitChar, GoTime.mk.injEq, and_true, true_and,
    eq_self_iff_true]
  have r1 : t.year = 1000 * (t.year / 1000 % 10) + 100 * (t.year / 100 % 10)
      + 10 * (t.year / 10 % 10) + t.year % 10 := by omega
  have r2 : t'.year = 1000 * (t'.year / 1000 % 10) + 100 * (t'.year / 100 % 10)
      + 10 * (t'.year / 10 % 10) + t'.year % 10 := by omega
  have r3 : t.month = 10 * (t.month / 10 % 10) + t.month % 10 := by omega
  have r4 : t'.month = 10 * (t'.month / 10 % 10) + t'.month % 10 := by omega
  constructor
  · intro h
    refine ⟨by omega, by omega⟩
  · intro h
    refine ⟨by omega, by omega, by omega, by omega, by omega, by omega⟩

/-! ## Structure of the aggregate output -/

theorem emit_mem (parse : String → GoTime) (sums : List (String × List (String × Int)))
    (r : parser.Event) :
    r ∈ sliceList (emitAggregates parse sums) ↔
      ∃ tk ∈ sortStrings (sums.map Prod.fst),
        ∃ p ∈ sortStrings ((lookupD tk sums []).map Prod.fst),
          r = bucketRecord parse sums tk p := by
  rw [emitAggregates_toList]
  simp only [List.mem_flatten, List.mem_map]
  constructor
  · rintro ⟨l, ⟨tk, htk, rfl⟩, hl⟩
    obtain ⟨p, hp, rfl⟩ := List.mem_map.mp hl
    exact ⟨tk, htk, p, hp, rfl⟩
  · rintro ⟨tk, htk, p, hp, rfl⟩
    exact ⟨_, ⟨tk, htk, rfl⟩, List.mem_map_of_mem _ hp⟩

theorem bucketRecord_startTime (parse : String → GoTime)
    (sums : List (String × List (String × Int))) (tk p : String) :
    (bucketRecord parse sums tk p).startTime = parse tk := rfl

theorem bucketRecord_project (parse : String → GoTime)
    (sums : List (String × List (String × Int))) (tk p : String) :
    (bucketRecord parse sums tk p).project = p := rfl

theorem emit_build_spec (fmt : GoTime → String) (parse : String → GoTime)
    (period : GoTime → GoTime) (evs : List parser.Event)
    (hval : ∀ ev ∈ evs, (ev.startTime).ValidCivil)
    (hper : ∀ t, t.ValidCivil → parse (fmt t) = period t)
    (heq : ∀ t t', t.ValidCivil → t'.ValidCivil → (fmt t = fmt t' ↔ period t = period t'))
    (hlt : ∀ t t', t.ValidCivil → t'.ValidCivil →
      (fmt t < fmt t' ↔ civilLT (period t) (period t'))) :
    (∀ ts p, (∃ r ∈ sliceList (emitAggregates parse (buildSums fmt evs)),
        r.startTime = ts ∧ r.project = p) ↔
      (∃ ev ∈ evs, period ev.startTime = ts ∧ ev.project = p)) ∧
    (∀ r ∈ sliceList (emitAggregates parse (buildSums fmt evs)),
      r.activity = "" ∧ r.tags = goNil ∧ r.persons = goNil ∧
      r.duration = ((evs.filter (fun ev =>
        decide (period ev.startTime = r.startTime) && (ev.project == r.project))).map
        (fun ev => ev.duration)).sum) ∧
    (sliceList (emitAggregates parse (buildSums fmt evs))).Pairwise
      (fun a b => civilLT a.startTime b.startTime ∨
        (a.startTime = b.startTime ∧ a.project < b.project)) := by
  have hokeys : ∀ tk, tk ∈ (buildSums fmt evs).map Prod.fst ↔
      ∃ ev ∈ evs, fmt ev.startTime = tk := buildSums_keys_mem fmt evs
  have hikeys : ∀ tk p, p ∈ (lookupD tk (buildSums fmt evs) []).map Prod.fst ↔
      ∃ ev ∈ evs, fmt ev.startTime = tk ∧ ev.project = p := by
    intro tk p
    rw [lookupD_eq]
    exact buildSums_inner_mem fmt evs tk p
  refine ⟨?_, ?_, ?_⟩
  · intro ts p
    constructor
    · rintro ⟨r, hr, hts, hp⟩
      obtain ⟨tk, htk, p0, hp0, rfl⟩ := (emit_mem parse _ r).mp hr
      have htk' : tk ∈ (buildSums fmt evs).map Prod.fst :=
        (sortStrings_perm _).mem_iff.mp htk
      have hp0' : p0 ∈ (lookupD tk (buildSums fmt evs) []).map Prod.fst :=
        (sortStrings_perm _).mem_iff.mp hp0
      obtain ⟨ev1, hev1, hfmt1, hproj1⟩ := (hikeys tk p0).mp hp0'
      refine ⟨ev1, hev1, ?_, ?_⟩
      · rw [← hts, bucketRecord_startTime, ← hfmt1, hper _ (hval ev1 hev1)]
      · rw [← hp, bucketRecord_project, hproj1]
    · rintro ⟨ev, hev, hts, hp⟩
      have htk : fmt ev.startTime ∈ (buildSums fmt evs).map Prod.fst :=
        (hokeys _).mpr ⟨ev, hev, rfl⟩
      have hpin : ev.project ∈
          (lookupD (fmt ev.startTime) (buildSums fmt evs) []).map Prod.fst :=
        (hikeys _ _).mpr ⟨ev, hev, rfl, rfl⟩
      refine ⟨bucketRecord parse (buildSums fmt evs) (fmt ev.startTime) ev.project,
        (emit_mem parse _ _).mpr ⟨fmt ev.startTime, (sortStrings_perm _).mem_iff.mpr htk,
          ev.project, (sortStrings_perm _).mem_iff.mpr hpin, rfl⟩, ?_, ?_⟩
      · rw [bucketRecord_startTime, hper _ (hval ev hev), hts]
      · rw [bucketRecord_project, hp]
  · intro r hr
    obtain ⟨tk, htk, p0, hp0, rfl⟩ := (emit_mem parse _ r).mp hr
    have htk' : tk ∈ (buildSums fmt evs).map Prod.fst :=
      (sortStrings_perm _).mem_iff.mp htk
    obtain ⟨ev1, hev1, hfmt1⟩ := (hokeys tk).mp htk'
    refine ⟨rfl, rfl, rfl, ?_⟩
    have hdur : (bucketRecord parse (buildSums fmt evs) tk p0).duration =
        ((evs.filter (fun ev => fmt ev.startTime == tk && ev.project == p0)).map
          (fun ev => ev.duration)).sum := by
      show lookupD p0 (lookupD tk (buildSums fmt evs) []) 0 = _
      rw [lookupD_eq, lookupD_eq]
      exact buildSums_value fmt evs tk p0
    rw [hdur]
    congr 1
    congr 1
    apply List.filter_congr
    intro ev hev
    have hiff : fmt ev.startTime = tk ↔
        period ev.startTime = (bucketRecord parse (buildSums fmt evs) tk p0).startTime := by
      rw [bucketRecord_startTime, ← hfmt1, hper _ (hval ev1 hev1)]
      exact heq _ _ (hval ev hev) (hval ev1 hev1)
    rw [bucketRecord_project]
    by_cases hc : fmt ev.startTime = tk
    · rw [show (fmt ev.startTime == tk) = true by simp [hc],
        show decide (period ev.startTime =
          (bucketRecord parse (buildSums fmt evs) tk p0).startTime) = true by
            simp [hiff.mp hc]]
    · rw [show (fmt ev.startTime == tk) = false by simp [hc],
        show decide (period ev.startTime =
          (bucketRecord parse (buildSums fmt evs) tk p0).startTime) = false by
            simp only [decide_eq_false_iff_not]
            exact fun h => hc (hiff.mpr h)]
  · rw [emitAggregates_toList]
    rw [List.pairwise_flatten]
    constructor
    · intro l hl
      obtain ⟨tk, htk, rfl⟩ := List.mem_map.mp hl
      rw [List.pairwise_map]
      have hnd : ((lookupD tk (buildSums fmt evs) []).map Prod.fst).Nodup := by
        rw [lookupD_eq]
        exact buildSums_inner_nodup fmt evs tk
      refine (sortStrings_pairwise_lt _ hnd).imp ?_
      intro a b hab
      exact Or.inr ⟨rfl, hab⟩
    · rw [List.pairwise_map]
      have hnd : ((buildSums fmt evs).map Prod.fst).Nodup := buildSums_keys_nodup fmt evs
      refine List.Pairwise.imp_of_mem ?_ (sortStrings_pairwise_lt _ hnd)
      intro tk tk' htk htk' hlt'
      intro x hx y hy
      obtain ⟨p, hp, rfl⟩ := List.mem_map.mp hx
      obtain ⟨p', hp', rfl⟩ := List.mem_map.mp hy
      left
      rw [bucketRecord_startTime, bucketRecord_startTime]
      obtain ⟨ev1, hev1, hfmt1⟩ := (hokeys tk).mp ((sortStrings_perm _).mem_iff.mp htk)
      obtain ⟨ev2, hev2, hfmt2⟩ := (hokeys tk').mp ((sortStrings_perm _).mem_iff.mp htk')
      rw [← hfmt1, ← hfmt2, hper _ (hval ev1 hev1), hper _ (hval ev2 hev2)]
      apply (hlt _ _ (hval ev1 hev1) (hval ev2 hev2)).mp
      rw [hfmt1, hfmt2]
      exact hlt'

/-- C3: for policies `daily` and `monthly` (on records whose start times are
calendar-valid with RFC3339 4-digit years, as the parser guarantees), the
aggregate stage emits exactly one record per non-empty (periodStart, Project)
bucket — periodStart being the start of the record's civil day or month in
the record's own offset, re-labelled UTC — with `Activity` empty, `Tags` and
`Persons` nil, `StartTime` the periodStart, `Duration` the bucket sum, and
the output strictly ascending by periodStart then by project. -/
theorem maybeAggregate_buckets (policy : String)
    (hpol : policy = "daily" ∨ policy = "monthly")
    (inputs : GoSlice parser.Event)
    (hval : ∀ ev ∈ sliceList inputs, (ev.startTime).ValidCivil) :
    ∃ s, pipeline.maybeAggregate policy inputs = .ok s ∧
      (∀ ts p, (∃ r ∈ sliceList s, r.startTime = ts ∧ r.project = p) ↔
        (∃ ev ∈ sliceList inputs, periodStart policy ev.startTime = ts ∧ ev.project = p)) ∧
      (∀ r ∈ sliceList s, r.activity = "" ∧ r.tags = goNil ∧ r.persons = goNil ∧
        r.duration = (((sliceList inputs).filter (fun ev =>
          decide (periodStart policy ev.startTime = r.startTime) &&
            (ev.project == r.project))).map (fun ev => ev.duration)).sum) ∧
      (sliceList s).Pairwise (fun a b => civilLT a.startTime b.startTime ∨
        (a.startTime = b.startTime ∧ a.project < b.project)) := by
  rcases hpol with rfl | rfl
  · exact ⟨_, rfl, emit_build_spec fmtDaily parseDailyZ (periodStart "daily")
      (sliceList inputs) hval (fun t hv => parseDailyZ_fmtDaily t hv)
      (fun t t' hv hv' => fmtDaily_eq_iff t t' hv hv')
      (fun t t' hv hv' => fmtDaily_lt_iff t t' hv hv')⟩
  · exact ⟨_, rfl, emit_build_spec fmtMonthly parseMonthlyZ (periodStart "monthly")
      (sliceList inputs) hval (fun t hv => parseMonthlyZ_fmtMonthly t hv)
      (fun t t' hv hv' => fmtMonthly_eq_iff t t' hv hv')
      (fun t t' hv hv' => fmtMonthly_lt_iff t t' hv hv')⟩

/-- C3 witness: the bucket description instantiated at policy `daily` on a
concrete calendar-valid record. -/
theorem maybeAggregate_buckets_witness :
    ((("daily" : String) = "daily" ∨ ("daily" : String) = "monthly") ∧
      (∀ ev ∈ sliceList (goOf [sampleEvent]), (ev.startTime).ValidCivil)) ∧
    (∃ s, pipeline.maybeAggregate "daily" (goOf [sampleEvent]) = .ok s ∧
      (∀ ts p, (∃ r ∈ sliceList s, r.startTime = ts ∧ r.project = p) ↔
        (∃ ev ∈ sliceList (goOf [sampleEvent]),
          periodStart "daily" ev.startTime = ts ∧ ev.project = p)) ∧
      (∀ r ∈ sliceList s, r.activity = "" ∧ r.tags = goNil ∧ r.persons = goNil ∧
        r.duration = (((sliceList (goOf [sampleEvent])).filter (fun ev =>
          decide (periodStart "daily" ev.startTime = r.startTime) &&
            (ev.project == r.project))).map (fun ev => ev.duration)).sum) ∧
      (sliceList s).Pairwise (fun a b => civilLT a.startTime b.startTime ∨
        (a.startTime = b.startTime ∧ a.project < b.project))) :=
  ⟨⟨Or.inl rfl, by decide⟩,
    maybeAggregate_buckets "daily" (Or.inl rfl) (goOf [sampleEvent]) (by decide)⟩

end Weekly
